import Mathlib

/-!
Verification of the putarr transfer-proxy and reconciliation engine.

Go strings are modelled as `List Char` (sequences of Unicode scalar values);
machine `int64` values are modelled as `Int` with explicit range checks where
the code checks them.  Remote Put.io state is modelled as an explicit record
threaded through the operations, with an event trace recording every remote
call so that "performs no remote mutation" is expressible.
-/

namespace Putarr

/-- Go strings as lists of Unicode scalar values. -/
abbrev GoStr := List Char

/-- Shorthand for turning a Lean string literal into the model's string type. -/
def str (s : String) : GoStr := s.data

/-! ## Basic Go string helpers (strings package) -/

/-- `strings.HasPrefix`. -/
def goHasPre (pre s : GoStr) : Bool :=
  match pre, s with
  | [], _ => true
  | _ :: _, [] => false
  | p :: ps, c :: cs => p = c && goHasPre ps cs

/-- `strings.TrimPrefix`: drops `pre` when it is a prefix, otherwise returns `s` unchanged. -/
def goTrimPre (pre s : GoStr) : GoStr :=
  if goHasPre pre s then s.drop pre.length else s

/-- `strings.CutPrefix`: `some rest` when `pre` is a prefix of `s`. -/
def goCutPre (pre s : GoStr) : Option GoStr :=
  if goHasPre pre s then some (s.drop pre.length) else none

/-- ASCII lower-casing of one character, as Go `strings.ToLower` acts on ASCII.
(Go folds the full Unicode tables, but no non-ASCII character simple-folds to
any character of the ASCII alphabet used by the hash prefix or decimal digits,
so the ASCII table is observationally sufficient here.) -/
def goToLowerChar (c : Char) : Char :=
  if 65 ≤ c.toNat ∧ c.toNat ≤ 90 then Char.ofNat (c.toNat + 32) else c

/-- `strings.ToLower` (ASCII-relevant part). -/
def goToLower (s : GoStr) : GoStr := s.map goToLowerChar

/-- ASCII upper-casing of one character. -/
def goToUpperChar (c : Char) : Char :=
  if 97 ≤ c.toNat ∧ c.toNat ≤ 122 then Char.ofNat (c.toNat - 32) else c

/-- `strings.ToUpper` (ASCII-relevant part). -/
def goToUpper (s : GoStr) : GoStr := s.map goToUpperChar

/-! ## Decimal integers: `fmt.Sprintf("%d", …)` and `strconv.ParseInt` -/

/-- The ASCII digit character for `n % 10`. -/
def digitChar (n : Nat) : Char :=
  match n % 10 with
  | 0 => '0' | 1 => '1' | 2 => '2' | 3 => '3' | 4 => '4'
  | 5 => '5' | 6 => '6' | 7 => '7' | 8 => '8' | _ => '9'

/-- Decimal digit rendering, on explicit fuel so that it evaluates by
structural reduction. -/
def natToDigitsAux : Nat → Nat → GoStr
  | 0, _ => []
  | fuel + 1, n =>
    if n < 10 then [digitChar n]
    else natToDigitsAux fuel (n / 10) ++ [digitChar (n % 10)]

/-- Decimal digit string of a natural number (no sign, no leading zeros). -/
def natToDigits (n : Nat) : GoStr := natToDigitsAux (n + 1) n

theorem natToDigitsAux_irrel :
    ∀ (n fuel fuel2 : Nat), n < fuel → n < fuel2 →
      natToDigitsAux fuel n = natToDigitsAux fuel2 n := by
  intro n
  induction n using Nat.strong_induction_on with
  | _ n ih =>
    intro fuel fuel2 h1 h2
    match fuel, fuel2 with
    | f1 + 1, f2 + 1 =>
      rw [natToDigitsAux, natToDigitsAux]
      by_cases hn : n < 10
      · rw [if_pos hn, if_pos hn]
      · rw [if_neg hn, if_neg hn,
          ih (n / 10) (Nat.div_lt_self (by omega) (by omega)) f1 f2 (by omega) (by omega)]

/-- The recursive unfolding of `natToDigits`. -/
theorem natToDigits_step (n : Nat) :
    natToDigits n =
      if n < 10 then [digitChar n]
      else natToDigits (n / 10) ++ [digitChar (n % 10)] := by
  rw [natToDigits, natToDigitsAux]
  by_cases hn : n < 10
  · rw [if_pos hn, if_pos hn]
  · rw [if_neg hn, if_neg hn,
      natToDigitsAux_irrel (n / 10) n (n / 10 + 1) (by omega) (by omega)]
    rfl

/-- `%d` rendering of an integer. -/
def intToDec (i : Int) : GoStr :=
  if i < 0 then '-' :: natToDigits (-i).toNat else natToDigits i.toNat

/-- Is `c` an ASCII decimal digit? -/
def isDigitChar (c : Char) : Bool := 48 ≤ c.toNat && c.toNat ≤ 57

/-- Numeric value of a digit string (caller checks the digits). -/
def digitsVal (s : GoStr) : Nat :=
  s.foldl (fun a c => a * 10 + (c.toNat - 48)) 0

/-- The digits-and-range part of `strconv.ParseInt(s, 10, 64)`: one or more
decimal digits whose value fits in a signed 64-bit integer of the given sign. -/
def goParseDigits64 (ds : GoStr) (neg : Bool) : Option Int :=
  if ds = [] then none
  else if ds.all isDigitChar then
    if neg then
      if digitsVal ds ≤ 2 ^ 63 then some (-(digitsVal ds : Int)) else none
    else
      if digitsVal ds < 2 ^ 63 then some ((digitsVal ds : Int)) else none
  else none

/-- `strconv.ParseInt(s, 10, 64)`: optional sign, then one or more decimal
digits, with the result required to fit in a signed 64-bit integer.
Returns `none` on any syntax or range error (Go also returns a clamped value
alongside the error; every caller in this codebase only checks the error). -/
def goParseInt64 (s : GoStr) : Option Int :=
  match s with
  | [] => none
  | c :: rest =>
    if c = '-' then goParseDigits64 rest true
    else if c = '+' then goParseDigits64 rest false
    else goParseDigits64 (c :: rest) false

/-! ## Hash Codec (`transmission.go`: `FormatTorrentHash` / `ParseTorrentHash`) -/

/-- `FormatTorrentHash(id)`: the fixed prefix `putarr;` followed by `%d` of the id. -/
def FormatTorrentHash (id : Int) : GoStr := str "putarr;" ++ intToDec id

/-- `ParseTorrentHash(key)`: lower-cases the key, cuts the `putarr;` prefix,
and parses the remainder with `strconv.ParseInt(s, 10, 64)`. -/
def ParseTorrentHash (key : GoStr) : Option Int :=
  match goCutPre (str "putarr;") (goToLower key) with
  | none => none
  | some s => goParseInt64 s

/-! ### Hash codec lemmas -/

theorem digitChar_isDigit (n : Nat) : isDigitChar (digitChar n) = true := by
  unfold digitChar
  have h : n % 10 < 10 := Nat.mod_lt _ (by omega)
  interval_cases h : n % 10 <;> simp [h, isDigitChar]

theorem digitChar_toNat (n : Nat) (h : n < 10) : (digitChar n).toNat = 48 + n := by
  unfold digitChar
  have h10 : n % 10 = n := Nat.mod_eq_of_lt h
  interval_cases n <;> simp [h10]

theorem natToDigits_ne_nil (n : Nat) : natToDigits n ≠ [] := by
  rw [natToDigits_step]
  split
  · simp
  · simp

theorem natToDigits_all_digits (n : Nat) : (natToDigits n).all isDigitChar = true := by
  induction n using Nat.strong_induction_on with
  | _ n ih =>
    rw [natToDigits_step]
    split
    · simp [digitChar_isDigit]
    · rename_i h
      rw [List.all_append]
      have := ih (n / 10) (Nat.div_lt_self (by omega) (by omega))
      simp [this, digitChar_isDigit]

theorem digitsVal_append_digit (s : GoStr) (c : Char) :
    digitsVal (s ++ [c]) = digitsVal s * 10 + (c.toNat - 48) := by
  simp [digitsVal, List.foldl_append]

theorem digitsVal_natToDigits (n : Nat) : digitsVal (natToDigits n) = n := by
  induction n using Nat.strong_induction_on with
  | _ n ih =>
    rw [natToDigits_step]
    split
    · rename_i h
      simp [digitsVal, digitChar_toNat n h]
    · rename_i h
      rw [digitsVal_append_digit]
      have := ih (n / 10) (Nat.div_lt_self (by omega) (by omega))
      rw [this, digitChar_toNat (n % 10) (Nat.mod_lt _ (by omega))]
      omega

theorem goHasPre_append (p t : GoStr) : goHasPre p (p ++ t) = true := by
  induction p with
  | nil => rfl
  | cons c cs ih => simp [goHasPre, ih]

theorem goCutPre_append (p t : GoStr) : goCutPre p (p ++ t) = some t := by
  simp [goCutPre, goHasPre_append, List.drop_left]

theorem goToLowerChar_eq_self (c : Char) (h : c.toNat < 65) : goToLowerChar c = c := by
  unfold goToLowerChar
  rw [if_neg]
  omega

theorem goToUpperChar_eq_self (c : Char) (h : c.toNat < 97) : goToUpperChar c = c := by
  unfold goToUpperChar
  rw [if_neg]
  omega

theorem toNat_lt_of_isDigit (c : Char) (h : isDigitChar c = true) : c.toNat < 65 := by
  unfold isDigitChar at h
  simp only [Bool.and_eq_true, decide_eq_true_eq] at h
  omega

theorem goToLower_digits (s : GoStr) (h : s.all isDigitChar = true) : goToLower s = s := by
  simp only [List.all_eq_true] at h
  induction s with
  | nil => rfl
  | cons c cs ih =>
    have hc := goToLowerChar_eq_self c (toNat_lt_of_isDigit c (h c (by simp)))
    simp only [goToLower, List.map_cons, hc]
    have := ih (fun x hx => h x (List.mem_cons_of_mem _ hx))
    simpa [goToLower] using this

theorem goToUpper_digits (s : GoStr) (h : s.all isDigitChar = true) : goToUpper s = s := by
  simp only [List.all_eq_true] at h
  induction s with
  | nil => rfl
  | cons c cs ih =>
    have hlt := toNat_lt_of_isDigit c (h c (by simp))
    have hc := goToUpperChar_eq_self c (by omega)
    simp only [goToUpper, List.map_cons, hc]
    have := ih (fun x hx => h x (List.mem_cons_of_mem _ hx))
    simpa [goToUpper] using this

theorem goParseInt64_natToDigits (n : Nat) (h : n < 2 ^ 63) :
    goParseInt64 (natToDigits n) = some (n : Int) := by
  have hall := natToDigits_all_digits n
  have hval := digitsVal_natToDigits n
  rcases hd : natToDigits n with _ | ⟨c, cs⟩
  · exact absurd hd (natToDigits_ne_nil n)
  · rw [hd] at hall hval
    have hc : isDigitChar c = true := by
      simp only [List.all_cons, Bool.and_eq_true] at hall
      exact hall.1
    have hcn : 48 ≤ c.toNat ∧ c.toNat ≤ 57 := by
      unfold isDigitChar at hc
      simp only [Bool.and_eq_true, decide_eq_true_eq] at hc
      exact hc
    have hminus : ¬(c = '-') := by
      intro hEq
      rw [hEq] at hcn
      simp at hcn
    have hplus : ¬(c = '+') := by
      intro hEq
      rw [hEq] at hcn
      simp at hcn
    rw [goParseInt64, if_neg hminus, if_neg hplus, goParseDigits64,
      if_neg (List.cons_ne_nil c cs), if_pos hall]
    have hlt : digitsVal (c :: cs) < 9223372036854775808 := by
      rw [hval]
      omega
    have hn : n < 9223372036854775808 := by omega
    simp [hval, hlt, hn]


/-- The round-trip of the hash codec on non-negative 64-bit ids. -/
theorem parse_format_hash (id : Int) (h0 : 0 ≤ id) (h1 : id < 2 ^ 63) :
    ParseTorrentHash (FormatTorrentHash id) = some id := by
  have hneg : ¬(id < 0) := by omega
  have hdig : (natToDigits id.toNat).all isDigitChar = true := natToDigits_all_digits _
  have hlow : (natToDigits id.toNat).map goToLowerChar = natToDigits id.toNat :=
    goToLower_digits _ hdig
  have hpre : (str "putarr;").map goToLowerChar = str "putarr;" := by decide
  rw [ParseTorrentHash, FormatTorrentHash, intToDec, if_neg hneg, goToLower,
    List.map_append, hpre, hlow, goCutPre_append]
  show goParseInt64 (natToDigits id.toNat) = some id
  rw [goParseInt64_natToDigits id.toNat (by omega)]
  congr 1
  omega

/-- The round-trip also holds after upper-casing the formatted hash. -/
theorem parse_upper_format_hash (id : Int) (h0 : 0 ≤ id) (h1 : id < 2 ^ 63) :
    ParseTorrentHash (goToUpper (FormatTorrentHash id)) = some id := by
  have hneg : ¬(id < 0) := by omega
  have hdig : (natToDigits id.toNat).all isDigitChar = true := natToDigits_all_digits _
  have hup : (natToDigits id.toNat).map goToUpperChar = natToDigits id.toNat :=
    goToUpper_digits _ hdig
  have hlow : (natToDigits id.toNat).map goToLowerChar = natToDigits id.toNat :=
    goToLower_digits _ hdig
  have hpre : ((str "putarr;").map goToUpperChar).map goToLowerChar = str "putarr;" := by decide
  rw [ParseTorrentHash, FormatTorrentHash, intToDec, if_neg hneg, goToUpper, goToLower,
    List.map_append, List.map_append, hup, hlow, hpre, goCutPre_append]
  show goParseInt64 (natToDigits id.toNat) = some id
  rw [goParseInt64_natToDigits id.toNat (by omega)]
  congr 1
  omega

/-- Sign handling of a decimal literal: `-` means negative, a single leading
`+` or `-` is consumed, anything else leaves the string whole. -/
def signSplit (s : GoStr) : Bool × GoStr :=
  match s with
  | '-' :: rest => (true, rest)
  | '+' :: rest => (false, rest)
  | _ => (false, s)

/-- Is `s` a decimal integer literal that fits in a signed 64-bit integer:
an optional single sign followed by one or more ASCII digits, in range. -/
def isInt64DecLit (s : GoStr) : Bool :=
  let p := signSplit s
  !p.2.isEmpty && p.2.all isDigitChar &&
    (if p.1 then digitsVal p.2 ≤ 2 ^ 63 else digitsVal p.2 < 2 ^ 63)

/-- Is `s` a non-empty string of ASCII digits (a non-negative decimal literal)? -/
def isNonNegDecLit (s : GoStr) : Bool := !s.isEmpty && s.all isDigitChar

theorem goParseInt64_eq_signSplit (s : GoStr) :
    goParseInt64 s = goParseDigits64 (signSplit s).2 (signSplit s).1 := by
  match s with
  | [] => rfl
  | c :: rest =>
    by_cases hm : c = '-'
    · subst hm
      rfl
    · by_cases hp : c = '+'
      · subst hp
        rfl
      · have hss : signSplit (c :: rest) = (false, c :: rest) := by
          unfold signSplit
          split
          · rename_i hh
            injection hh with h1 _
            exact absurd h1 hm
          · rename_i hh
            injection hh with h1 _
            exact absurd h1 hp
          · rfl
        rw [hss, goParseInt64, if_neg hm, if_neg hp]

theorem goParseDigits64_isSome (ds : GoStr) (neg : Bool) :
    (goParseDigits64 ds neg).isSome =
      (!ds.isEmpty && ds.all isDigitChar &&
        (if neg then digitsVal ds ≤ 2 ^ 63 else digitsVal ds < 2 ^ 63)) := by
  unfold goParseDigits64
  by_cases he : ds = []
  · subst he
    simp
  · rw [if_neg he]
    have hne : ds.isEmpty = false := by
      cases ds with
      | nil => exact absurd rfl he
      | cons => rfl
    by_cases ha : ds.all isDigitChar
    · rw [if_pos ha]
      cases neg with
      | false =>
        by_cases hr : digitsVal ds < 9223372036854775808 <;> simp [hr, hne, ha]
      | true =>
        by_cases hr : digitsVal ds ≤ 9223372036854775808 <;> simp [hr, hne, ha]
    · simp only [Bool.not_eq_true] at ha
      simp [ha, hne]

theorem goParseInt64_isSome (s : GoStr) : (goParseInt64 s).isSome = isInt64DecLit s := by
  rw [goParseInt64_eq_signSplit, goParseDigits64_isSome]
  rfl

/-- Success characterization of `ParseTorrentHash`: it succeeds exactly when the
lower-cased key has the `putarr;` prefix and the remainder is a (possibly
signed) in-range decimal literal. -/
theorem ParseTorrentHash_isSome (s : GoStr) :
    (ParseTorrentHash s).isSome =
      (goHasPre (str "putarr;") (goToLower s) &&
        isInt64DecLit ((goToLower s).drop 7)) := by
  unfold ParseTorrentHash goCutPre
  by_cases h : goHasPre (str "putarr;") (goToLower s)
  · simp only [h, if_true, Bool.true_and]
    exact goParseInt64_isSome _
  · simp [h]

/-- Claim C6, counterexample to the claim as stated: `putarr;-1` parses
successfully (to `-1`) even though its remainder `-1` is not a valid
non-negative decimal integer, so `ParseTorrentHash` does not fail on every
string whose remainder is not a non-negative decimal integer. -/
theorem hash_parse_negative_counterexample :
    ParseTorrentHash (str "putarr;-1") = some (-1) ∧
      isNonNegDecLit (str "-1") = false := by
  constructor
  · decide
  · decide

/-- Claim C6 (amended): for every non-negative 64-bit id, parsing the formatted
hash returns the id, also after upper-casing the formatted string; and
`ParseTorrentHash` succeeds exactly when the lower-cased input has the
`putarr;` prefix and the remainder is a decimal integer literal with an
optional sign that fits in a signed 64-bit integer (so signed remainders such
as `-1` are accepted, not only non-negative ones). -/
theorem hash_codec_roundtrip (id : Int) (s : GoStr) (h0 : 0 ≤ id) (h1 : id < 2 ^ 63) :
    ParseTorrentHash (FormatTorrentHash id) = some id ∧
    ParseTorrentHash (goToUpper (FormatTorrentHash id)) = some id ∧
    (ParseTorrentHash s).isSome =
      (goHasPre (str "putarr;") (goToLower s) &&
        isInt64DecLit ((goToLower s).drop 7)) :=
  ⟨parse_format_hash id h0 h1, parse_upper_format_hash id h0 h1, ParseTorrentHash_isSome s⟩

/-- Witness for `hash_codec_roundtrip` at id 3 and input `PUTARR;77`. -/
theorem hash_codec_roundtrip_witness :
    ParseTorrentHash (FormatTorrentHash 3) = some 3 ∧
    ParseTorrentHash (goToUpper (FormatTorrentHash 3)) = some 3 ∧
    (ParseTorrentHash (str "PUTARR;77")).isSome =
      (goHasPre (str "putarr;") (goToLower (str "PUTARR;77")) &&
        isInt64DecLit ((goToLower (str "PUTARR;77")).drop 7)) :=
  hash_codec_roundtrip 3 (str "PUTARR;77") (by decide) (by decide)

/-! ## Data model: transfers and import-status records -/

/-- A `putio.Transfer` as the remote service reports it (the fields the core
reads; timestamps are modelled by presence only). -/
structure PutioTransfer where
  id : Int
  name : GoStr
  size : Int
  downloaded : Int
  callbackURL : GoStr
  fileID : Int
  status : GoStr
  finishedAt : Option Unit
deriving DecidableEq

/-- `internal.Transfer`: the remote transfer plus the Transmission download dir. -/
structure Transfer where
  transfer : PutioTransfer
  downloadDir : GoStr
deriving DecidableEq

/-- A Radarr queue record (`radarr.QueueRecord`), restricted to the fields the
aggregator reads. -/
structure RadarrQueueRecord where
  movieID : Int
  downloadID : GoStr
deriving DecidableEq

/-- A Radarr history record (`radarr.HistoryRecord`). -/
structure RadarrHistoryRecord where
  movieID : Int
  downloadID : GoStr
deriving DecidableEq

/-- `internal.RadarrItemStatus`. -/
structure RadarrItemStatus where
  pendingRecord : Option RadarrQueueRecord
  importRecord : Option RadarrHistoryRecord
deriving DecidableEq

/-- `internal.RadarrStatus`: Go map modelled as an association list. -/
structure RadarrStatus where
  statusByMovieID : List (Int × RadarrItemStatus)
deriving DecidableEq

/-- A Sonarr queue record (`sonarr.QueueRecord`). -/
structure SonarrQueueRecord where
  episodeID : Int
  downloadID : GoStr
deriving DecidableEq

/-- A Sonarr history record (`sonarr.HistoryRecord`). -/
structure SonarrHistoryRecord where
  episodeID : Int
  downloadID : GoStr
deriving DecidableEq

/-- `internal.SonarrItemStatus`. -/
structure SonarrItemStatus where
  pendingRecord : Option SonarrQueueRecord
  importRecord : Option SonarrHistoryRecord
deriving DecidableEq

/-- `internal.SonarrStatus`. -/
structure SonarrStatus where
  statusByEpisodeID : List (Int × SonarrItemStatus)
deriving DecidableEq

/-- Go map update (`m[k]` read-or-zero, mutate, store): replace the value at
`k` (passing the current one to `f`) or append a fresh entry. -/
def alistUpdate {V : Type} (k : Int) (f : Option V → V) : List (Int × V) → List (Int × V)
  | [] => [(k, f none)]
  | (k', v) :: rest =>
    if k' = k then (k', f (some v)) :: rest else (k', v) :: alistUpdate k f rest

/-! ## Import-Status Aggregators (`arr.go`) -/

/-- One queue record folded into the Radarr status map (the body of the first
`for` loop of `GetRadarrImportStatusByTransferID`): records whose download id
fails to parse as a transfer hash are skipped; otherwise the record becomes the
pending record of its `(transferID, movieID)` slot. -/
def radarrApplyQueueRecord (m : List (Int × RadarrStatus)) (r : RadarrQueueRecord) :
    List (Int × RadarrStatus) :=
  match ParseTorrentHash r.downloadID with
  | none => m
  | some id =>
    alistUpdate id
      (fun st? =>
        let st := st?.getD ⟨[]⟩
        ⟨alistUpdate r.movieID
          (fun it? => { it?.getD ⟨none, none⟩ with pendingRecord := some r })
          st.statusByMovieID⟩)
      m

/-- One history record folded into the Radarr status map (second loop). -/
def radarrApplyHistoryRecord (m : List (Int × RadarrStatus)) (r : RadarrHistoryRecord) :
    List (Int × RadarrStatus) :=
  match ParseTorrentHash r.downloadID with
  | none => m
  | some id =>
    alistUpdate id
      (fun st? =>
        let st := st?.getD ⟨[]⟩
        ⟨alistUpdate r.movieID
          (fun it? => { it?.getD ⟨none, none⟩ with importRecord := some r })
          st.statusByMovieID⟩)
      m

/-- One queue record folded into the Sonarr status map. -/
def sonarrApplyQueueRecord (m : List (Int × SonarrStatus)) (r : SonarrQueueRecord) :
    List (Int × SonarrStatus) :=
  match ParseTorrentHash r.downloadID with
  | none => m
  | some id =>
    alistUpdate id
      (fun st? =>
        let st := st?.getD ⟨[]⟩
        ⟨alistUpdate r.episodeID
          (fun it? => { it?.getD ⟨none, none⟩ with pendingRecord := some r })
          st.statusByEpisodeID⟩)
      m

/-- One history record folded into the Sonarr status map. -/
def sonarrApplyHistoryRecord (m : List (Int × SonarrStatus)) (r : SonarrHistoryRecord) :
    List (Int × SonarrStatus) :=
  match ParseTorrentHash r.downloadID with
  | none => m
  | some id =>
    alistUpdate id
      (fun st? =>
        let st := st?.getD ⟨[]⟩
        ⟨alistUpdate r.episodeID
          (fun it? => { it?.getD ⟨none, none⟩ with importRecord := some r })
          st.statusByEpisodeID⟩)
      m

/-- The data served by a reachable Radarr endpoint (queue newest-first and
history filtered to downloaded-folder-imported, as the two paged fetches
return them). -/
structure RadarrRemote where
  queue : List RadarrQueueRecord
  history : List RadarrHistoryRecord

/-- The data served by a reachable Sonarr endpoint. -/
structure SonarrRemote where
  queue : List SonarrQueueRecord
  history : List SonarrHistoryRecord

/-- One remote fetch against an import tracker, for the contact trace. -/
inductive ArrEvent where
  | radarrQueueFetch
  | radarrHistoryFetch
  | sonarrQueueFetch
  | sonarrHistoryFetch
deriving DecidableEq

/-- `internal.ArrClient`: the two optional tracker clients (`nil` = absent). -/
structure ArrClient where
  radarrClient : Option RadarrRemote
  sonarrClient : Option SonarrRemote

/-- `ArrClient.GetRadarrImportStatusByTransferID`: empty result when the movie
client is absent, otherwise one queue fetch and one history fetch grouped by
transfer id and movie id. -/
def GetRadarrImportStatusByTransferID (c : ArrClient) :
    Except Unit (List (Int × RadarrStatus)) × List ArrEvent :=
  match c.radarrClient with
  | none => (.ok [], [])
  | some remote =>
    let afterQueue := remote.queue.foldl radarrApplyQueueRecord []
    let afterHistory := remote.history.foldl radarrApplyHistoryRecord afterQueue
    (.ok afterHistory, [.radarrQueueFetch, .radarrHistoryFetch])

/-- `ArrClient.GetSonarrImportStatusByTransferID`.  NOTE: the absent-client
guard in the source tests `c.radarrClient`, not `c.sonarrClient`; the
subsequent fetches go through `c.sonarrClient` (a nil dereference when the
episode client is absent, modelled as an error that contacts nothing). -/
def GetSonarrImportStatusByTransferID (c : ArrClient) :
    Except Unit (List (Int × SonarrStatus)) × List ArrEvent :=
  match c.radarrClient with
  | none => (.ok [], [])
  | some _ =>
    match c.sonarrClient with
    | none => (.error (), [])
    | some remote =>
      let afterQueue := remote.queue.foldl sonarrApplyQueueRecord []
      let afterHistory := remote.history.foldl sonarrApplyHistoryRecord afterQueue
      (.ok afterHistory, [.sonarrQueueFetch, .sonarrHistoryFetch])

/-- Claim C10: with the movie-tracker client absent the episode aggregator
returns an empty status map and contacts no remote endpoint, even when an
episode-tracker client is configured with arbitrary data; and when both
clients are present the fetches do go to the episode tracker — the guard
tests the movie client while the fetches use the episode client. -/
theorem sonarr_status_guard_tests_radarr (s : SonarrRemote) (r : RadarrRemote) :
    GetSonarrImportStatusByTransferID ⟨none, some s⟩ = (.ok [], []) ∧
    (GetSonarrImportStatusByTransferID ⟨some r, some s⟩).2 =
      [ArrEvent.sonarrQueueFetch, ArrEvent.sonarrHistoryFetch] :=
  ⟨rfl, rfl⟩

/-! ## Janitor collection loop (`PutioJanitor.RunOnce`, selection phase) -/

/-- The inner flag computation of `RunOnce` for one Radarr status: start from
`true` and clear the flag on any item with a missing import record or a
present pending record. -/
def radarrImportedFlag (st : RadarrStatus) : Bool :=
  st.statusByMovieID.foldl
    (fun imported item =>
      if item.2.importRecord = none ∨ item.2.pendingRecord ≠ none then false else imported)
    true

/-- The inner flag computation of `RunOnce` for one Sonarr status. -/
def sonarrImportedFlag (st : SonarrStatus) : Bool :=
  st.statusByEpisodeID.foldl
    (fun imported item =>
      if item.2.importRecord = none ∨ item.2.pendingRecord ≠ none then false else imported)
    true

/-- The selection loop of `RunOnce`: walk the owned transfers, decide with the
Radarr entry if the transfer id is a Radarr key, else with the Sonarr entry if
it is a Sonarr key, else skip; collect the ids judged imported. -/
def collectCompleted (transfers : List Transfer)
    (radarrStatuses : List (Int × RadarrStatus))
    (sonarrStatuses : List (Int × SonarrStatus)) : List Int :=
  match transfers with
  | [] => []
  | t :: rest =>
    let tid := t.transfer.id
    let tail := collectCompleted rest radarrStatuses sonarrStatuses
    match radarrStatuses.lookup tid with
    | some st => if radarrImportedFlag st then tid :: tail else tail
    | none =>
      match sonarrStatuses.lookup tid with
      | some st => if sonarrImportedFlag st then tid :: tail else tail
      | none => tail

theorem foldl_clear_flag {α : Type} (C : α → Prop) [DecidablePred C] (l : List α) (b : Bool) :
    l.foldl (fun imported item => if C item then false else imported) b =
      (b && l.all fun item => !(decide (C item))) := by
  induction l generalizing b with
  | nil => simp
  | cons x xs ih =>
    simp only [List.foldl_cons, List.all_cons]
    by_cases hx : C x
    · rw [if_pos hx, ih]
      simp [hx]
    · rw [if_neg hx, ih]
      simp [hx]

theorem radarrImportedFlag_eq_all (st : RadarrStatus) :
    radarrImportedFlag st =
      st.statusByMovieID.all fun item =>
        item.2.importRecord.isSome && item.2.pendingRecord.isNone := by
  unfold radarrImportedFlag
  rw [foldl_clear_flag (fun item : Int × RadarrItemStatus =>
    item.2.importRecord = none ∨ item.2.pendingRecord ≠ none)]
  rw [Bool.true_and]
  have hfun : (fun item : Int × RadarrItemStatus =>
        !(decide (item.2.importRecord = none ∨ item.2.pendingRecord ≠ none)))
      = fun item => item.2.importRecord.isSome && item.2.pendingRecord.isNone := by
    funext item
    cases h1 : item.2.importRecord <;> cases h2 : item.2.pendingRecord <;> simp [h1, h2]
  rw [hfun]

theorem sonarrImportedFlag_eq_all (st : SonarrStatus) :
    sonarrImportedFlag st =
      st.statusByEpisodeID.all fun item =>
        item.2.importRecord.isSome && item.2.pendingRecord.isNone := by
  unfold sonarrImportedFlag
  rw [foldl_clear_flag (fun item : Int × SonarrItemStatus =>
    item.2.importRecord = none ∨ item.2.pendingRecord ≠ none)]
  rw [Bool.true_and]
  have hfun : (fun item : Int × SonarrItemStatus =>
        !(decide (item.2.importRecord = none ∨ item.2.pendingRecord ≠ none)))
      = fun item => item.2.importRecord.isSome && item.2.pendingRecord.isNone := by
    funext item
    cases h1 : item.2.importRecord <;> cases h2 : item.2.pendingRecord <;> simp [h1, h2]
  rw [hfun]

/-- The decision the loop body takes for one transfer id (code shape). -/
def janitorSelectsB (radarrStatuses : List (Int × RadarrStatus))
    (sonarrStatuses : List (Int × SonarrStatus)) (id : Int) : Bool :=
  match radarrStatuses.lookup id with
  | some st => radarrImportedFlag st
  | none =>
    match sonarrStatuses.lookup id with
    | some st => sonarrImportedFlag st
    | none => false

theorem collectCompleted_cons (t' : Transfer) (rest : List Transfer)
    (radarrStatuses : List (Int × RadarrStatus))
    (sonarrStatuses : List (Int × SonarrStatus)) :
    collectCompleted (t' :: rest) radarrStatuses sonarrStatuses =
      if janitorSelectsB radarrStatuses sonarrStatuses t'.transfer.id then
        t'.transfer.id :: collectCompleted rest radarrStatuses sonarrStatuses
      else collectCompleted rest radarrStatuses sonarrStatuses := by
  rcases hr : radarrStatuses.lookup t'.transfer.id with _ | st
  · rcases hs : sonarrStatuses.lookup t'.transfer.id with _ | st
    · simp [collectCompleted, janitorSelectsB, hr, hs]
    · by_cases hf : sonarrImportedFlag st <;>
        simp [collectCompleted, janitorSelectsB, hr, hs, hf]
  · by_cases hf : radarrImportedFlag st <;>
      simp [collectCompleted, janitorSelectsB, hr, hf]

theorem mem_collectCompleted (transfers : List Transfer)
    (radarrStatuses : List (Int × RadarrStatus))
    (sonarrStatuses : List (Int × SonarrStatus)) (id : Int) :
    id ∈ collectCompleted transfers radarrStatuses sonarrStatuses ↔
      ((∃ t ∈ transfers, t.transfer.id = id) ∧
        janitorSelectsB radarrStatuses sonarrStatuses id = true) := by
  induction transfers with
  | nil => simp [collectCompleted]
  | cons t' rest ih =>
    rw [collectCompleted_cons]
    by_cases hsel : janitorSelectsB radarrStatuses sonarrStatuses t'.transfer.id
    · rw [if_pos hsel]
      rw [List.mem_cons, ih]
      constructor
      · rintro (h | ⟨⟨u, hu, hui⟩, hs2⟩)
        · exact ⟨⟨t', List.mem_cons_self .., h.symm⟩, h ▸ hsel⟩
        · exact ⟨⟨u, List.mem_cons_of_mem _ hu, hui⟩, hs2⟩
      · rintro ⟨⟨u, hu, hui⟩, hs2⟩
        by_cases h : id = t'.transfer.id
        · exact Or.inl h
        · rcases List.mem_cons.mp hu with h' | h'
          · exact absurd (h' ▸ hui).symm h
          · exact Or.inr ⟨⟨u, h', hui⟩, hs2⟩
    · rw [if_neg hsel, ih]
      constructor
      · rintro ⟨⟨u, hu, hui⟩, hs2⟩
        exact ⟨⟨u, List.mem_cons_of_mem _ hu, hui⟩, hs2⟩
      · rintro ⟨⟨u, hu, hui⟩, hs2⟩
        rcases List.mem_cons.mp hu with h' | h'
        · rw [← (h' ▸ hui : t'.transfer.id = id)] at hs2
          exact absurd hs2 hsel
        · exact ⟨⟨u, h', hui⟩, hs2⟩

/-- The per-id selection condition of the janitor, written as the claim states
it: either the id is a Radarr key whose every item has a completed import
record and no pending record, or it is not a Radarr key, is a Sonarr key, and
every item there has a completed import record and no pending record. -/
def janitorSelects (radarrStatuses : List (Int × RadarrStatus))
    (sonarrStatuses : List (Int × SonarrStatus)) (id : Int) : Prop :=
  (∃ st, radarrStatuses.lookup id = some st ∧
    ∀ item ∈ st.statusByMovieID,
      item.2.importRecord.isSome = true ∧ item.2.pendingRecord = none) ∨
  (radarrStatuses.lookup id = none ∧
    ∃ st, sonarrStatuses.lookup id = some st ∧
      ∀ item ∈ st.statusByEpisodeID,
        item.2.importRecord.isSome = true ∧ item.2.pendingRecord = none)

theorem janitorSelectsB_iff_janitorSelects (radarrStatuses : List (Int × RadarrStatus))
    (sonarrStatuses : List (Int × SonarrStatus)) (id : Int) :
    janitorSelectsB radarrStatuses sonarrStatuses id = true ↔
      janitorSelects radarrStatuses sonarrStatuses id := by
  unfold janitorSelects
  rcases hr : radarrStatuses.lookup id with _ | st
  · rcases hs : sonarrStatuses.lookup id with _ | st
    · have hB : janitorSelectsB radarrStatuses sonarrStatuses id = false := by
        unfold janitorSelectsB
        rw [hr, hs]
      rw [hB]
      simp
    · have hB : janitorSelectsB radarrStatuses sonarrStatuses id = sonarrImportedFlag st := by
        unfold janitorSelectsB
        rw [hr, hs]
      rw [hB, sonarrImportedFlag_eq_all, List.all_eq_true]
      constructor
      · intro h
        refine Or.inr ⟨rfl, st, rfl, fun item hitem => ?_⟩
        have := h item hitem
        simp only [Bool.and_eq_true, Option.isNone_iff_eq_none] at this
        exact this
      · rintro (⟨st', hst', _⟩ | ⟨_, st', hst', hall⟩)
        · cases hst'
        · injection hst' with hst'
          subst hst'
          intro item hitem
          have := hall item hitem
          simp only [Bool.and_eq_true, Option.isNone_iff_eq_none]
          exact this
  · have hB : janitorSelectsB radarrStatuses sonarrStatuses id = radarrImportedFlag st := by
      unfold janitorSelectsB
      rw [hr]
    rw [hB, radarrImportedFlag_eq_all, List.all_eq_true]
    constructor
    · intro h
      refine Or.inl ⟨st, rfl, fun item hitem => ?_⟩
      have := h item hitem
      simp only [Bool.and_eq_true, Option.isNone_iff_eq_none] at this
      exact this
    · rintro (⟨st', hst', hall⟩ | ⟨hnone, _⟩)
      · injection hst' with hst'
        subst hst'
        intro item hitem
        have := hall item hitem
        simp only [Bool.and_eq_true, Option.isNone_iff_eq_none]
        exact this
      · cases hnone

/-- Claim C1: over any reconciliation pass, a transfer's id is collected for
removal iff its id is a key of the movie-status map and every per-movie item
has a completed import record and no pending record, or its id is not a
movie-status key, is a key of the episode-status map, and every per-episode
item has a completed import record and no pending record; a transfer keyed in
neither map is never collected. -/
theorem janitor_collects_iff (transfers : List Transfer)
    (radarrStatuses : List (Int × RadarrStatus))
    (sonarrStatuses : List (Int × SonarrStatus))
    (t : Transfer) (ht : t ∈ transfers) :
    t.transfer.id ∈ collectCompleted transfers radarrStatuses sonarrStatuses ↔
      janitorSelects radarrStatuses sonarrStatuses t.transfer.id := by
  rw [mem_collectCompleted, janitorSelectsB_iff_janitorSelects]
  constructor
  · exact fun h => h.2
  · exact fun h => ⟨⟨t, ht, rfl⟩, h⟩

/-- Witness for `janitor_collects_iff`: a one-transfer pass whose id is a
Radarr key with a fully-imported item. -/
theorem janitor_collects_iff_witness :
    (Transfer.mk ⟨5, [], 0, 0, [], 0, [], none⟩ []).transfer.id ∈
        collectCompleted [⟨⟨5, [], 0, 0, [], 0, [], none⟩, []⟩]
          [(5, ⟨[(123, ⟨none, some ⟨123, str "x"⟩⟩)]⟩)] [] ↔
      janitorSelects [(5, ⟨[(123, ⟨none, some ⟨123, str "x"⟩⟩)]⟩)] []
        (Transfer.mk ⟨5, [], 0, 0, [], 0, [], none⟩ []).transfer.id :=
  janitor_collects_iff [⟨⟨5, [], 0, 0, [], 0, [], none⟩, []⟩]
    [(5, ⟨[(123, ⟨none, some ⟨123, str "x"⟩⟩)]⟩)] []
    ⟨⟨5, [], 0, 0, [], 0, [], none⟩, []⟩ (List.mem_singleton.mpr rfl)

/-! ## Character-level helpers for the byte codecs -/

theorem char_toNat_ofNat_small (n : Nat) (h : n < 55296) : (Char.ofNat n).toNat = n := by
  unfold Char.ofNat
  rw [dif_pos (Or.inl h)]
  rfl

theorem char_eq_of_toNat_eq (c d : Char) (h : c.toNat = d.toNat) : c = d :=
  Char.ext (UInt32.ext h)

theorem char_toNat_lt (c : Char) : c.toNat < 1114112 := by
  have h : c.val.isValidChar := c.valid
  unfold UInt32.isValidChar Nat.isValidChar at h
  have he : c.toNat = c.val.toNat := rfl
  rcases h with h | h <;> omega

/-- Go strings are byte strings; a `List Nat` models one with each entry a byte. -/
abbrev Bytes := List Nat

/-! ## UTF-8 (how Go lays out a string's runes as bytes) -/

def isContByte (b : Nat) : Bool := 128 ≤ b && b < 192

/-- Decode the 2-byte UTF-8 tail. -/
def utf8DecodeTwo (b0 : Nat) : Bytes → Option (Char × Bytes)
  | b1 :: rest =>
    if isContByte b1 then some (Char.ofNat ((b0 - 192) * 64 + (b1 - 128)), rest) else none
  | [] => none

/-- Decode the 3-byte UTF-8 tail. -/
def utf8DecodeThree (b0 : Nat) : Bytes → Option (Char × Bytes)
  | b1 :: b2 :: rest =>
    if isContByte b1 && isContByte b2 then
      some (Char.ofNat ((b0 - 224) * 4096 + (b1 - 128) * 64 + (b2 - 128)), rest)
    else none
  | _ => none

/-- Decode the 4-byte UTF-8 tail. -/
def utf8DecodeFour (b0 : Nat) : Bytes → Option (Char × Bytes)
  | b1 :: b2 :: b3 :: rest =>
    if isContByte b1 && isContByte b2 && isContByte b3 then
      some (Char.ofNat
        ((b0 - 240) * 262144 + (b1 - 128) * 4096 + (b2 - 128) * 64 + (b3 - 128)), rest)
    else none
  | _ => none

/-- Decode one UTF-8 encoded scalar from the head of a byte string. -/
def utf8DecodeOne : Bytes → Option (Char × Bytes)
  | [] => none
  | b0 :: rest =>
    if b0 < 128 then some (Char.ofNat b0, rest)
    else if b0 < 192 then none
    else if b0 < 224 then utf8DecodeTwo b0 rest
    else if b0 < 240 then utf8DecodeThree b0 rest
    else if b0 < 248 then utf8DecodeFour b0 rest
    else none

def utf8DecodeAux : Nat → Bytes → Option GoStr
  | _, [] => some []
  | 0, _ :: _ => none
  | fuel + 1, b0 :: rest =>
    (utf8DecodeOne (b0 :: rest)).bind fun p => (utf8DecodeAux fuel p.2).map (p.1 :: ·)

def utf8Decode (bs : Bytes) : Option GoStr := utf8DecodeAux bs.length bs

theorem utf8DecodeTwo_shorter (b0 : Nat) (bs : Bytes) (c : Char) (rem : Bytes)
    (h : utf8DecodeTwo b0 bs = some (c, rem)) : rem.length < bs.length := by
  match bs with
  | [] => cases h
  | b1 :: rest =>
    rw [utf8DecodeTwo] at h
    split_ifs at h
    injection h with h'
    rw [show rem = rest from congrArg Prod.snd h'.symm]
    simp

theorem utf8DecodeThree_shorter (b0 : Nat) (bs : Bytes) (c : Char) (rem : Bytes)
    (h : utf8DecodeThree b0 bs = some (c, rem)) : rem.length < bs.length := by
  match bs with
  | [] => cases h
  | [b1] => cases h
  | b1 :: b2 :: rest =>
    rw [utf8DecodeThree] at h
    split_ifs at h
    injection h with h'
    rw [show rem = rest from congrArg Prod.snd h'.symm]
    simp
    omega

theorem utf8DecodeFour_shorter (b0 : Nat) (bs : Bytes) (c : Char) (rem : Bytes)
    (h : utf8DecodeFour b0 bs = some (c, rem)) : rem.length < bs.length := by
  match bs with
  | [] => cases h
  | [b1] => cases h
  | [b1, b2] => cases h
  | b1 :: b2 :: b3 :: rest =>
    rw [utf8DecodeFour] at h
    split_ifs at h
    injection h with h'
    rw [show rem = rest from congrArg Prod.snd h'.symm]
    simp
    omega

theorem utf8DecodeOne_shorter (bs : Bytes) (c : Char) (rem : Bytes)
    (h : utf8DecodeOne bs = some (c, rem)) : rem.length < bs.length := by
  match bs with
  | [] => cases h
  | b0 :: rest =>
    rw [utf8DecodeOne] at h
    split_ifs at h
    · injection h with h'
      rw [show rem = rest from congrArg Prod.snd h'.symm]
      simp
    · have := utf8DecodeTwo_shorter b0 rest c rem h
      simp only [List.length_cons]
      omega
    · have := utf8DecodeThree_shorter b0 rest c rem h
      simp only [List.length_cons]
      omega
    · have := utf8DecodeFour_shorter b0 rest c rem h
      simp only [List.length_cons]
      omega

theorem utf8DecodeAux_fuel (fuel : Nat) (bs : Bytes) (h : bs.length ≤ fuel) :
    utf8DecodeAux fuel bs = utf8Decode bs := by
  induction fuel using Nat.strong_induction_on generalizing bs with
  | _ fuel ih =>
    match fuel, bs with
    | 0, [] => rfl
    | fuel + 1, [] => rfl
    | 0, b :: rest => simp at h
    | fuel + 1, b0 :: rest =>
      rw [utf8DecodeAux]
      rcases hone : utf8DecodeOne (b0 :: rest) with _ | ⟨c, rem⟩
      · rw [utf8Decode, List.length_cons, utf8DecodeAux, hone]
        rfl
      · have hlen := utf8DecodeOne_shorter _ _ _ hone
        simp only [List.length_cons] at hlen h
        rw [utf8Decode, List.length_cons, utf8DecodeAux, hone]
        simp only [Option.some_bind]
        rw [ih fuel (by omega) rem (by omega), ih rest.length (by omega) rem (by omega)]

def utf8EncodeChar (n : Nat) : Bytes :=
  if n < 128 then [n]
  else if n < 2048 then [192 + n / 64, 128 + n % 64]
  else if n < 65536 then [224 + n / 4096, 128 + (n / 64) % 64, 128 + n % 64]
  else [240 + n / 262144, 128 + (n / 4096) % 64, 128 + (n / 64) % 64, 128 + n % 64]

def utf8Encode : GoStr → Bytes
  | [] => []
  | c :: cs => utf8EncodeChar c.toNat ++ utf8Encode cs

theorem utf8DecodeOne_encodeChar (c : Char) (bs : Bytes) :
    utf8DecodeOne (utf8EncodeChar c.toNat ++ bs) = some (c, bs) := by
  have hlt : c.toNat < 1114112 := char_toNat_lt c
  have hofn : Char.ofNat c.toNat = c := Char.ofNat_toNat c
  by_cases h1 : c.toNat < 128
  · rw [utf8EncodeChar, if_pos h1, List.cons_append, List.nil_append,
      utf8DecodeOne, if_pos h1, hofn]
  · by_cases h2 : c.toNat < 2048
    · rw [utf8EncodeChar, if_neg h1, if_pos h2, List.cons_append, List.cons_append,
        List.nil_append, utf8DecodeOne, if_neg (by omega), if_neg (by omega),
        if_pos (by omega), utf8DecodeTwo, if_pos (by unfold isContByte; simp; omega)]
      have hv : (192 + c.toNat / 64 - 192) * 64 + (128 + c.toNat % 64 - 128) = c.toNat := by
        omega
      rw [hv, hofn]
    · by_cases h3 : c.toNat < 65536
      · rw [utf8EncodeChar, if_neg h1, if_neg h2, if_pos h3, List.cons_append,
          List.cons_append, List.cons_append, List.nil_append, utf8DecodeOne,
          if_neg (by omega), if_neg (by omega), if_neg (by omega), if_pos (by omega),
          utf8DecodeThree, if_pos (by unfold isContByte; simp; omega)]
        have hv : (224 + c.toNat / 4096 - 224) * 4096 + (128 + c.toNat / 64 % 64 - 128) * 64 +
            (128 + c.toNat % 64 - 128) = c.toNat := by
          omega
        rw [hv, hofn]
      · rw [utf8EncodeChar, if_neg h1, if_neg h2, if_neg h3, List.cons_append,
          List.cons_append, List.cons_append, List.cons_append, List.nil_append,
          utf8DecodeOne, if_neg (by omega), if_neg (by omega), if_neg (by omega),
          if_neg (by omega), if_pos (by omega),
          utf8DecodeFour, if_pos (by unfold isContByte; simp; omega)]
        have hv : (240 + c.toNat / 262144 - 240) * 262144 +
            (128 + c.toNat / 4096 % 64 - 128) * 4096 +
            (128 + c.toNat / 64 % 64 - 128) * 64 + (128 + c.toNat % 64 - 128) = c.toNat := by
          omega
        rw [hv, hofn]

theorem utf8Decode_step (bs : Bytes) (hne : bs ≠ []) :
    utf8Decode bs = (utf8DecodeOne bs).bind fun p => (utf8Decode p.2).map (p.1 :: ·) := by
  match bs with
  | b0 :: rest =>
    rw [utf8Decode, List.length_cons, utf8DecodeAux]
    rcases hone : utf8DecodeOne (b0 :: rest) with _ | ⟨c, rem⟩
    · rfl
    · simp only [Option.some_bind]
      have hlen := utf8DecodeOne_shorter _ _ _ hone
      simp only [List.length_cons] at hlen
      rw [utf8DecodeAux_fuel rest.length rem (by omega)]

theorem utf8EncodeChar_ne_nil (n : Nat) : utf8EncodeChar n ≠ [] := by
  unfold utf8EncodeChar
  split_ifs <;> simp

theorem utf8Decode_encode_append (s : GoStr) (bs : Bytes) :
    utf8Decode (utf8Encode s ++ bs) = (utf8Decode bs).map (s ++ ·) := by
  induction s with
  | nil =>
    cases h : utf8Decode bs <;> simp [utf8Encode, h]
  | cons c cs ih =>
    have hne : utf8EncodeChar c.toNat ++ (utf8Encode cs ++ bs) ≠ [] := by
      simp [utf8EncodeChar_ne_nil c.toNat]
    rw [utf8Encode, List.append_assoc, utf8Decode_step _ hne, utf8DecodeOne_encodeChar,
      Option.some_bind, ih]
    cases utf8Decode bs <;> simp

theorem utf8Decode_utf8Encode (s : GoStr) : utf8Decode (utf8Encode s) = some s := by
  have h := utf8Decode_encode_append s []
  rw [show utf8Decode [] = some [] from rfl] at h
  simpa using h


theorem utf8EncodeChar_lt_256 (n : Nat) (h : n < 1114112) :
    ∀ b ∈ utf8EncodeChar n, b < 256 := by
  intro b hb
  unfold utf8EncodeChar at hb
  by_cases h1 : n < 128
  · rw [if_pos h1] at hb
    simp at hb
    omega
  · by_cases h2 : n < 2048
    · rw [if_neg h1, if_pos h2] at hb
      simp at hb
      rcases hb with hb | hb <;> omega
    · by_cases h3 : n < 65536
      · rw [if_neg h1, if_neg h2, if_pos h3] at hb
        simp at hb
        rcases hb with hb | hb | hb <;> omega
      · rw [if_neg h1, if_neg h2, if_neg h3] at hb
        simp at hb
        rcases hb with hb | hb | hb | hb <;> omega

theorem utf8Encode_lt_256 (s : GoStr) : ∀ b ∈ utf8Encode s, b < 256 := by
  induction s with
  | nil => intro b hb; cases hb
  | cons c cs ih =>
    intro b hb
    rw [utf8Encode] at hb
    rcases List.mem_append.mp hb with hb | hb
    · exact utf8EncodeChar_lt_256 c.toNat (char_toNat_lt c) b hb
    · exact ih b hb

/-! ## Percent-escaping (net/url `QueryEscape`/`QueryUnescape` and the
fragment and path modes of `escape`/`unescape`) -/

/-- Bytes Go never escapes in any mode: ASCII alphanumerics and `-
. _ ~`. -/
def isUnreservedByte (b : Nat) : Bool :=
  (48 ≤ b && b ≤ 57) || (65 ≤ b && b ≤ 90) || (97 ≤ b && b ≤ 122) ||
    b = 45 || b = 46 || b = 95 || b = 126

/-- Extra bytes `shouldEscape` keeps verbatim in fragment mode:
`$ & + , / : ; = ? @` and `! ( ) *`. -/
def isFragmentExtraByte (b : Nat) : Bool :=
  b = 36 || b = 38 || b = 43 || b = 44 || b = 47 || b = 58 || b = 59 ||
    b = 61 || b = 63 || b = 64 || b = 33 || b = 40 || b = 41 || b = 42

/-- Extra bytes kept verbatim in path mode (`encodePath`): `$ & + , / : ; = @`
(everything of the sub-delims set except `?`). -/
def isPathExtraByte (b : Nat) : Bool :=
  b = 36 || b = 38 || b = 43 || b = 44 || b = 47 || b = 58 || b = 59 ||
    b = 61 || b = 64

/-- The upper-case hex digit Go uses in percent escapes. -/
def upperHexChar (n : Nat) : Char :=
  Char.ofNat (if n < 10 then 48 + n else 55 + n)

/-- Hex digit value (Go's `unhex`, accepting both cases). -/
def hexVal (c : Char) : Option Nat :=
  if 48 ≤ c.toNat ∧ c.toNat ≤ 57 then some (c.toNat - 48)
  else if 65 ≤ c.toNat ∧ c.toNat ≤ 70 then some (c.toNat - 55)
  else if 97 ≤ c.toNat ∧ c.toNat ≤ 102 then some (c.toNat - 87)
  else none

/-- `url.QueryEscape` on a byte string: unreserved bytes kept, space becomes
`+`, all else becomes `%XX`. -/
def queryEscapeBytes : Bytes → GoStr
  | [] => []
  | b :: bs =>
    (if isUnreservedByte b then [Char.ofNat b]
     else if b = 32 then ['+']
     else ['%', upperHexChar (b / 16), upperHexChar (b % 16)]) ++ queryEscapeBytes bs

/-- Escape in fragment mode: unreserved and fragment-safe bytes kept, all else
(including space) becomes `%XX`. -/
def fragEscapeBytes : Bytes → GoStr
  | [] => []
  | b :: bs =>
    (if isUnreservedByte b || isFragmentExtraByte b then [Char.ofNat b]
     else ['%', upperHexChar (b / 16), upperHexChar (b % 16)]) ++ fragEscapeBytes bs

/-- `url.QueryEscape` of a Go string (its UTF-8 bytes). -/
def QueryEscape (s : GoStr) : GoStr := queryEscapeBytes (utf8Encode s)

/-- `escape(s, encodeFragment)` of a Go string. -/
def EscapeFragment (s : GoStr) : GoStr := fragEscapeBytes (utf8Encode s)

/-- Two hex digits after a `%`: the byte and the remainder. -/
def hexPairCase : GoStr → Option (Bytes × GoStr)
  | h1 :: h2 :: cs2 =>
    (hexVal h1).bind fun a => (hexVal h2).map fun b => (([a * 16 + b] : Bytes), cs2)
  | _ => none

/-- Consume one unescaping unit: a `%XX` escape, a `+` (translated to a space
byte when `plusIsSpace`, i.e. in query-component mode), or a verbatim
character (its UTF-8 bytes). -/
def percentDecodeOne (plusIsSpace : Bool) : GoStr → Option (Bytes × GoStr)
  | [] => none
  | c :: cs =>
    if c = '%' then hexPairCase cs
    else if plusIsSpace && c = '+' then some ([32], cs)
    else some (utf8EncodeChar c.toNat, cs)

/-- The unescape loop over a whole string (fuelled by the input length). -/
def unescBytesAux (plusIsSpace : Bool) : Nat → GoStr → Option Bytes
  | _, [] => some []
  | 0, _ :: _ => none
  | fuel + 1, c :: cs =>
    (percentDecodeOne plusIsSpace (c :: cs)).bind fun p =>
      (unescBytesAux plusIsSpace fuel p.2).map (p.1 ++ ·)

/-- `unescape(s, encodeQueryComponent)` down to bytes. -/
def queryUnescapeBytes (s : GoStr) : Option Bytes := unescBytesAux true s.length s

/-- `unescape(s, encodeFragment)` down to bytes (`+` is left alone). -/
def fragUnescapeBytes (s : GoStr) : Option Bytes := unescBytesAux false s.length s

/-- `url.QueryUnescape`. -/
def QueryUnescape (s : GoStr) : Option GoStr := (queryUnescapeBytes s).bind utf8Decode

/-- `unescape(s, encodeFragment)` as a string (what `URL.setFragment` stores). -/
def UnescapeFragment (s : GoStr) : Option GoStr := (fragUnescapeBytes s).bind utf8Decode

/-- Path unescaping has the same `%XX`-only translation as the fragment mode. -/
def UnescapePath (s : GoStr) : Option GoStr := (fragUnescapeBytes s).bind utf8Decode

/-! ### Percent-escaping round-trips -/

theorem hexVal_upperHexChar (n : Nat) (h : n < 16) : hexVal (upperHexChar n) = some n := by
  unfold upperHexChar hexVal
  by_cases h10 : n < 10
  · rw [if_pos h10, char_toNat_ofNat_small (48 + n) (by omega), if_pos (by omega)]
    congr 1
    omega
  · rw [if_neg h10, char_toNat_ofNat_small (55 + n) (by omega), if_neg (by omega),
      if_pos (by omega)]
    congr 1
    omega

theorem upperHexChar_toNat_ranges (n : Nat) (h : n < 16) :
    (48 ≤ (upperHexChar n).toNat ∧ (upperHexChar n).toNat ≤ 57) ∨
      (65 ≤ (upperHexChar n).toNat ∧ (upperHexChar n).toNat ≤ 70) := by
  unfold upperHexChar
  by_cases h10 : n < 10
  · rw [if_pos h10, char_toNat_ofNat_small (48 + n) (by omega)]
    omega
  · rw [if_neg h10, char_toNat_ofNat_small (55 + n) (by omega)]
    omega

theorem percentDecodeOne_shorter (plus : Bool) (s : GoStr) (p : Bytes × GoStr)
    (h : percentDecodeOne plus s = some p) : p.2.length < s.length := by
  match s with
  | [] => cases h
  | c :: cs =>
    rw [percentDecodeOne] at h
    split_ifs at h
    · match cs with
      | [] => cases h
      | [h1] => cases h
      | h1 :: h2 :: cs2 =>
        rw [hexPairCase] at h
        rcases ha : hexVal h1 with _ | a
        · rw [ha] at h
          simp at h
        · rw [ha] at h
          rcases hb2 : hexVal h2 with _ | b2
          · rw [hb2] at h
            simp at h
          · rw [hb2] at h
            simp only [Option.some_bind, Option.map_some'] at h
            have h2 : p.2 = cs2 := by
              cases h
              rfl
            rw [h2]
            simp
            omega
    · injection h with h'
      rw [show p.2 = cs from congrArg Prod.snd h'.symm]
      simp
    · injection h with h'
      rw [show p.2 = cs from congrArg Prod.snd h'.symm]
      simp

theorem unescBytesAux_fuel (plus : Bool) (fuel : Nat) (s : GoStr) (h : s.length ≤ fuel) :
    unescBytesAux plus fuel s = unescBytesAux plus s.length s := by
  induction fuel using Nat.strong_induction_on generalizing s with
  | _ fuel ih =>
    match fuel, s with
    | 0, [] => rfl
    | fuel + 1, [] => rfl
    | 0, c :: cs => simp at h
    | fuel + 1, c :: cs =>
      rw [unescBytesAux]
      rcases hone : percentDecodeOne plus (c :: cs) with _ | p
      · rw [List.length_cons, unescBytesAux, hone]
        rfl
      · have hlen := percentDecodeOne_shorter plus _ _ hone
        simp only [List.length_cons] at hlen h
        rw [List.length_cons, unescBytesAux, hone]
        simp only [Option.some_bind]
        rw [ih fuel (by omega) p.2 (by omega), ih cs.length (by omega) p.2 (by omega)]

theorem unescBytesAux_step (plus : Bool) (s : GoStr) (hne : s ≠ []) :
    unescBytesAux plus s.length s =
      (percentDecodeOne plus s).bind fun p =>
        (unescBytesAux plus p.2.length p.2).map (p.1 ++ ·) := by
  match s with
  | c :: cs =>
    rw [List.length_cons, unescBytesAux]
    rcases hone : percentDecodeOne plus (c :: cs) with _ | p
    · rfl
    · have hlen := percentDecodeOne_shorter plus _ _ hone
      simp only [List.length_cons] at hlen
      simp only [Option.some_bind]
      rw [unescBytesAux_fuel plus cs.length p.2 (by omega)]

theorem utf8EncodeChar_byte (b : Nat) (h : b < 128) : utf8EncodeChar b = [b] := by
  unfold utf8EncodeChar
  rw [if_pos h]

theorem queryUnescapeBytes_escape (bs : Bytes) (h : ∀ b ∈ bs, b < 256) :
    queryUnescapeBytes (queryEscapeBytes bs) = some bs := by
  induction bs with
  | nil => rfl
  | cons b rest ih =>
    have hb : b < 256 := h b (by simp)
    have ihr := ih (fun x hx => h x (List.mem_cons_of_mem _ hx))
    rw [queryUnescapeBytes] at ihr
    rw [queryEscapeBytes, queryUnescapeBytes]
    by_cases hu : isUnreservedByte b
    · have hblt : b < 128 := by
        unfold isUnreservedByte at hu
        simp at hu
        omega
      have hbn : (Char.ofNat b).toNat = b := char_toNat_ofNat_small b (by omega)
      have hnp : ¬(Char.ofNat b = '%') := by
        intro hEq
        have := congrArg Char.toNat hEq
        rw [hbn] at this
        unfold isUnreservedByte at hu
        simp at hu this
        omega
      have hnplus : ¬(true && Char.ofNat b = '+') := by
        intro hEq
        simp only [Bool.true_and, decide_eq_true_eq] at hEq
        have := congrArg Char.toNat hEq
        rw [hbn] at this
        unfold isUnreservedByte at hu
        simp at hu this
        omega
      rw [if_pos hu, List.cons_append, List.nil_append]
      rw [unescBytesAux_step true _ (by simp)]
      rw [percentDecodeOne, if_neg hnp, if_neg (by simpa using hnplus)]
      simp only [Option.some_bind]
      rw [ihr, hbn, utf8EncodeChar_byte b hblt]
      rfl
    · by_cases hsp : b = 32
      · rw [if_neg hu, if_pos hsp, List.cons_append, List.nil_append]
        rw [unescBytesAux_step true _ (by simp)]
        rw [percentDecodeOne, if_neg (by decide), if_pos (by decide)]
        simp only [Option.some_bind]
        rw [ihr, hsp]
        rfl
      · rw [if_neg hu, if_neg hsp, List.cons_append, List.cons_append, List.cons_append,
          List.nil_append]
        rw [unescBytesAux_step true _ (by simp)]
        rw [percentDecodeOne, if_pos rfl, hexPairCase,
          hexVal_upperHexChar (b / 16) (by omega), hexVal_upperHexChar (b % 16) (by omega)]
        simp only [Option.some_bind, Option.map_some']
        rw [ihr]
        have hv : b / 16 * 16 + b % 16 = b := by omega
        rw [hv]
        rfl

theorem fragUnescapeBytes_escape (bs : Bytes) (h : ∀ b ∈ bs, b < 256) :
    fragUnescapeBytes (fragEscapeBytes bs) = some bs := by
  induction bs with
  | nil => rfl
  | cons b rest ih =>
    have hb : b < 256 := h b (by simp)
    have ihr := ih (fun x hx => h x (List.mem_cons_of_mem _ hx))
    rw [fragUnescapeBytes] at ihr
    rw [fragEscapeBytes, fragUnescapeBytes]
    by_cases hu : isUnreservedByte b || isFragmentExtraByte b
    · have hblt : b < 128 := by
        unfold isUnreservedByte isFragmentExtraByte at hu
        simp at hu
        rcases hu with hu | hu <;> omega
      have hbn : (Char.ofNat b).toNat = b := char_toNat_ofNat_small b (by omega)
      have hnp : ¬(Char.ofNat b = '%') := by
        intro hEq
        have := congrArg Char.toNat hEq
        rw [hbn] at this
        unfold isUnreservedByte isFragmentExtraByte at hu
        simp at hu this
        omega
      rw [if_pos hu, List.cons_append, List.nil_append]
      rw [unescBytesAux_step false _ (by simp)]
      rw [percentDecodeOne, if_neg hnp, if_neg (by simp)]
      simp only [Option.some_bind]
      rw [ihr, hbn, utf8EncodeChar_byte b hblt]
      rfl
    · rw [if_neg hu, List.cons_append, List.cons_append, List.cons_append,
        List.nil_append]
      rw [unescBytesAux_step false _ (by simp)]
      rw [percentDecodeOne, if_pos rfl, hexPairCase,
        hexVal_upperHexChar (b / 16) (by omega), hexVal_upperHexChar (b % 16) (by omega)]
      simp only [Option.some_bind, Option.map_some']
      rw [ihr]
      have hv : b / 16 * 16 + b % 16 = b := by omega
      rw [hv]
      rfl

theorem QueryUnescape_QueryEscape (s : GoStr) : QueryUnescape (QueryEscape s) = some s := by
  rw [QueryUnescape, QueryEscape, queryUnescapeBytes_escape _ (utf8Encode_lt_256 s),
    Option.some_bind, utf8Decode_utf8Encode]

theorem UnescapeFragment_EscapeFragment (s : GoStr) :
    UnescapeFragment (EscapeFragment s) = some s := by
  rw [UnescapeFragment, EscapeFragment, fragUnescapeBytes_escape _ (utf8Encode_lt_256 s),
    Option.some_bind, utf8Decode_utf8Encode]

/-! ## JSON string codec (`encoding/json` on the one-field `extraState`) -/

/-- The double-quote character. -/
def quoteChar : Char := Char.ofNat 34

/-- The backslash character. -/
def backslashChar : Char := Char.ofNat 92

/-- The opening-brace character. -/
def lbraceChar : Char := Char.ofNat 123

/-- The closing-brace character. -/
def rbraceChar : Char := Char.ofNat 125

/-- The lower-case hex digit the Go JSON encoder uses in `\u` escapes. -/
def lowerHexChar (n : Nat) : Char :=
  Char.ofNat (if n < 10 then 48 + n else 87 + n)

/-- How Go's JSON encoder emits one character of a string value: quote and
backslash escaped, `\n` `\r` `\t` short forms, other control characters (and
the HTML-escaped `<` `>` `&`) as `\u00XX`, the line/paragraph separators as
` `/` `, everything else verbatim. -/
def jsonEscapeChar (c : Char) : GoStr :=
  if c.toNat = 34 then [backslashChar, quoteChar]
  else if c.toNat = 92 then [backslashChar, backslashChar]
  else if c.toNat = 10 then [backslashChar, 'n']
  else if c.toNat = 13 then [backslashChar, 'r']
  else if c.toNat = 9 then [backslashChar, 't']
  else if c.toNat < 32 ∨ c.toNat = 60 ∨ c.toNat = 62 ∨ c.toNat = 38 then
    [backslashChar, 'u', '0', '0', lowerHexChar (c.toNat / 16), lowerHexChar (c.toNat % 16)]
  else if c.toNat = 8232 ∨ c.toNat = 8233 then
    [backslashChar, 'u', '2', '0', '2', lowerHexChar (c.toNat % 16)]
  else [c]

/-- JSON escaping of a whole string value. -/
def jsonEscape : GoStr → GoStr
  | [] => []
  | c :: cs => jsonEscapeChar c ++ jsonEscape cs

/-- `json.Marshal(extraState{DownloadDir: d})`: the exact bytes Go produces
for the one-field struct with JSON tag `d`. -/
def jsonMarshalExtra (d : GoStr) : GoStr :=
  [lbraceChar, quoteChar, 'd', quoteChar, ':', quoteChar] ++ jsonEscape d ++
    [quoteChar, rbraceChar]

/-- Four hex digits of a `\u` escape (the decoder side; surrogate pairs are
never produced by the marshaller above and are not combined here). -/
def hex4Case : GoStr → Option (Char × GoStr)
  | h1 :: h2 :: h3 :: h4 :: cs =>
    (hexVal h1).bind fun a =>
      (hexVal h2).bind fun b =>
        (hexVal h3).bind fun c =>
          (hexVal h4).map fun d => (Char.ofNat (a * 4096 + b * 256 + c * 16 + d), cs)
  | _ => none

/-- One escape sequence after a backslash in a JSON string. -/
def jsonEscSeq : GoStr → Option (Char × GoStr)
  | [] => none
  | e :: cs2 =>
    if e = quoteChar then some (quoteChar, cs2)
    else if e = backslashChar then some (backslashChar, cs2)
    else if e = '/' then some ('/', cs2)
    else if e = 'n' then some (Char.ofNat 10, cs2)
    else if e = 'r' then some (Char.ofNat 13, cs2)
    else if e = 't' then some (Char.ofNat 9, cs2)
    else if e = 'b' then some (Char.ofNat 8, cs2)
    else if e = 'f' then some (Char.ofNat 12, cs2)
    else if e = 'u' then hex4Case cs2
    else none

/-- JSON string-body scanner (after the opening quote): returns the decoded
value and the remainder after the closing quote. -/
def jsonStrAux : Nat → GoStr → Option (GoStr × GoStr)
  | _, [] => none
  | 0, _ :: _ => none
  | fuel + 1, c :: cs =>
    if c = quoteChar then some ([], cs)
    else if c = backslashChar then
      (jsonEscSeq cs).bind fun p =>
        (jsonStrAux fuel p.2).map fun q => (p.1 :: q.1, q.2)
    else (jsonStrAux fuel cs).map fun q => (c :: q.1, q.2)

/-- JSON string body with canonical fuel. -/
def jsonStringBody (s : GoStr) : Option (GoStr × GoStr) := jsonStrAux s.length s

/-- `json.Unmarshal` of the callback payload into `extraState`: accepts the
exact object shape the marshaller above writes (the only shape this codec ever
has to read back; Go's decoder is more lenient on foreign inputs, which only
makes this model reject a few more malformed callback URLs). -/
def jsonUnmarshalExtra (s : GoStr) : Option GoStr :=
  (goCutPre [lbraceChar, quoteChar, 'd', quoteChar, ':', quoteChar] s).bind fun rest =>
    (jsonStringBody rest).bind fun p =>
      match p.2 with
      | [r] => if r = rbraceChar then some p.1 else none
      | _ => none

/-! ### JSON round-trip -/

theorem hexVal_lowerHexChar (n : Nat) (h : n < 16) : hexVal (lowerHexChar n) = some n := by
  unfold lowerHexChar hexVal
  by_cases h10 : n < 10
  · rw [if_pos h10, char_toNat_ofNat_small (48 + n) (by omega), if_pos (by omega)]
    congr 1
    omega
  · rw [if_neg h10, char_toNat_ofNat_small (87 + n) (by omega), if_neg (by omega),
      if_neg (by omega), if_pos (by omega)]
    congr 1
    omega

theorem hex4Case_shorter (s : GoStr) (p : Char × GoStr) (h : hex4Case s = some p) :
    p.2.length + 4 ≤ s.length := by
  match s with
  | [] => cases h
  | [a] => cases h
  | [a, b] => cases h
  | [a, b, c] => cases h
  | h1 :: h2 :: h3 :: h4 :: cs =>
    rw [hex4Case] at h
    rcases e1 : hexVal h1 with _ | a1
    · rw [e1] at h
      simp at h
    · rw [e1] at h
      rcases e2 : hexVal h2 with _ | a2
      · rw [e2] at h
        simp at h
      · rw [e2] at h
        rcases e3 : hexVal h3 with _ | a3
        · rw [e3] at h
          simp at h
        · rw [e3] at h
          rcases e4 : hexVal h4 with _ | a4
          · rw [e4] at h
            simp at h
          · rw [e4] at h
            simp only [Option.some_bind, Option.map_some'] at h
            have h2' : p.2 = cs := by
              cases h
              rfl
            rw [h2']
            simp only [List.length_cons]
            omega

theorem jsonEscSeq_shorter (s : GoStr) (p : Char × GoStr) (h : jsonEscSeq s = some p) :
    p.2.length < s.length := by
  match s with
  | [] => cases h
  | e :: cs2 =>
    rw [jsonEscSeq] at h
    split_ifs at h with h1 h2 h3 h4 h5 h6 h7 h8 h9
    all_goals first
      | (injection h with h'
         rw [show p.2 = cs2 from congrArg Prod.snd h'.symm]
         simp)
      | (have hsh := hex4Case_shorter cs2 p h
         simp only [List.length_cons]
         omega)

theorem jsonStrAux_fuel (fuel : Nat) (s : GoStr) (h : s.length ≤ fuel) :
    jsonStrAux fuel s = jsonStringBody s := by
  induction fuel using Nat.strong_induction_on generalizing s with
  | _ fuel ih =>
    match fuel, s with
    | 0, [] => rfl
    | fuel + 1, [] => rfl
    | 0, c :: cs => simp at h
    | fuel + 1, c :: cs =>
      rw [jsonStrAux]
      by_cases hq : c = quoteChar
      · rw [if_pos hq, jsonStringBody, List.length_cons, jsonStrAux, if_pos hq]
      · rw [if_neg hq]
        by_cases hbs : c = backslashChar
        · rw [if_pos hbs, jsonStringBody, List.length_cons, jsonStrAux, if_neg hq, if_pos hbs]
          rcases he : jsonEscSeq cs with _ | p
          · rfl
          · have hlen := jsonEscSeq_shorter cs p he
            simp only [List.length_cons] at h
            simp only [Option.some_bind]
            rw [ih fuel (by omega) p.2 (by omega), ih cs.length (by omega) p.2 (by omega)]
        · rw [if_neg hbs, jsonStringBody, List.length_cons, jsonStrAux, if_neg hq, if_neg hbs]
          simp only [List.length_cons] at h
          rw [ih fuel (by omega) cs (by omega), ih cs.length (by omega) cs (by omega)]

theorem jsonStringBody_cons (c : Char) (cs : GoStr) :
    jsonStringBody (c :: cs) =
      if c = quoteChar then some ([], cs)
      else if c = backslashChar then
        (jsonEscSeq cs).bind fun p =>
          (jsonStringBody p.2).map fun q => (p.1 :: q.1, q.2)
      else (jsonStringBody cs).map fun q => (c :: q.1, q.2) := by
  rw [jsonStringBody, List.length_cons, jsonStrAux]
  by_cases hq : c = quoteChar
  · rw [if_pos hq, if_pos hq]
  · rw [if_neg hq, if_neg hq]
    by_cases hbs : c = backslashChar
    · rw [if_pos hbs, if_pos hbs]
      rcases he : jsonEscSeq cs with _ | p
      · rfl
      · have hlen := jsonEscSeq_shorter cs p he
        simp only [Option.some_bind]
        rw [jsonStrAux_fuel cs.length p.2 (by omega)]
    · rw [if_neg hbs, if_neg hbs]
      rw [jsonStrAux_fuel cs.length cs (by omega)]

theorem jsonStringBody_escape (d rest : GoStr) :
    jsonStringBody (jsonEscape d ++ quoteChar :: rest) = some (d, rest) := by
  induction d with
  | nil =>
    rw [jsonEscape, List.nil_append, jsonStringBody_cons, if_pos rfl]
  | cons c cs ih =>
    rw [jsonEscape, List.append_assoc, jsonEscapeChar]
    by_cases h34 : c.toNat = 34
    · have hc : c = quoteChar := char_eq_of_toNat_eq c quoteChar (by rw [h34]; rfl)
      rw [if_pos h34, List.cons_append, List.cons_append, List.nil_append,
        jsonStringBody_cons, if_neg (by decide), if_pos rfl, jsonEscSeq, if_pos rfl,
        Option.some_bind, ih, hc]
      rfl
    · rw [if_neg h34]
      by_cases h92 : c.toNat = 92
      · have hc : c = backslashChar := char_eq_of_toNat_eq c backslashChar (by rw [h92]; rfl)
        rw [if_pos h92, List.cons_append, List.cons_append, List.nil_append,
          jsonStringBody_cons, if_neg (by decide), if_pos rfl, jsonEscSeq,
          if_neg (by decide), if_pos rfl, Option.some_bind, ih, hc]
        rfl
      · rw [if_neg h92]
        by_cases h10 : c.toNat = 10
        · have hc : Char.ofNat 10 = c := by
            rw [← h10]
            exact Char.ofNat_toNat c
          rw [if_pos h10, List.cons_append, List.cons_append, List.nil_append,
            jsonStringBody_cons, if_neg (by decide), if_pos rfl, jsonEscSeq,
            if_neg (by decide), if_neg (by decide), if_neg (by decide), if_pos rfl,
            Option.some_bind, ih, hc]
          rfl
        · rw [if_neg h10]
          by_cases h13 : c.toNat = 13
          · have hc : Char.ofNat 13 = c := by
              rw [← h13]
              exact Char.ofNat_toNat c
            rw [if_pos h13, List.cons_append, List.cons_append, List.nil_append,
              jsonStringBody_cons, if_neg (by decide), if_pos rfl, jsonEscSeq,
              if_neg (by decide), if_neg (by decide), if_neg (by decide), if_neg (by decide),
              if_pos rfl, Option.some_bind, ih, hc]
            rfl
          · rw [if_neg h13]
            by_cases h9 : c.toNat = 9
            · have hc : Char.ofNat 9 = c := by
                rw [← h9]
                exact Char.ofNat_toNat c
              rw [if_pos h9, List.cons_append, List.cons_append, List.nil_append,
                jsonStringBody_cons, if_neg (by decide), if_pos rfl, jsonEscSeq,
                if_neg (by decide), if_neg (by decide), if_neg (by decide),
                if_neg (by decide), if_neg (by decide), if_pos rfl,
                Option.some_bind, ih, hc]
              rfl
            · rw [if_neg h9]
              by_cases hctl : c.toNat < 32 ∨ c.toNat = 60 ∨ c.toNat = 62 ∨ c.toNat = 38
              · have hlt : c.toNat < 256 := by omega
                have hc : Char.ofNat (0 * 4096 + 0 * 256 + c.toNat / 16 * 16 + c.toNat % 16)
                    = c := by
                  have hv : 0 * 4096 + 0 * 256 + c.toNat / 16 * 16 + c.toNat % 16 = c.toNat := by
                    omega
                  rw [hv]
                  exact Char.ofNat_toNat c
                rw [if_pos hctl, List.cons_append, List.cons_append, List.cons_append,
                  List.cons_append, List.cons_append, List.cons_append, List.nil_append,
                  jsonStringBody_cons, if_neg (by decide), if_pos rfl, jsonEscSeq,
                  if_neg (by decide), if_neg (by decide), if_neg (by decide),
                  if_neg (by decide), if_neg (by decide), if_neg (by decide),
                  if_neg (by decide), if_neg (by decide), if_pos rfl, hex4Case,
                  show hexVal '0' = some 0 from rfl,
                  hexVal_lowerHexChar (c.toNat / 16) (by omega),
                  hexVal_lowerHexChar (c.toNat % 16) (by omega)]
                simp only [Option.some_bind, Option.map_some']
                rw [ih, hc]
                rfl
              · rw [if_neg hctl]
                by_cases hsep : c.toNat = 8232 ∨ c.toNat = 8233
                · have hc : Char.ofNat (2 * 4096 + 0 * 256 + 2 * 16 + c.toNat % 16) = c := by
                    have hv : 2 * 4096 + 0 * 256 + 2 * 16 + c.toNat % 16 = c.toNat := by
                      omega
                    rw [hv]
                    exact Char.ofNat_toNat c
                  rw [if_pos hsep, List.cons_append, List.cons_append, List.cons_append,
                    List.cons_append, List.cons_append, List.cons_append, List.nil_append,
                    jsonStringBody_cons, if_neg (by decide), if_pos rfl, jsonEscSeq,
                    if_neg (by decide), if_neg (by decide), if_neg (by decide),
                    if_neg (by decide), if_neg (by decide), if_neg (by decide),
                    if_neg (by decide), if_neg (by decide), if_pos rfl, hex4Case,
                    show hexVal '2' = some 2 from rfl,
                    show hexVal '0' = some 0 from rfl,
                    hexVal_lowerHexChar (c.toNat % 16) (by omega)]
                  simp only [Option.some_bind, Option.map_some']
                  rw [ih, hc]
                  rfl
                · have hnq : ¬(c = quoteChar) := by
                    intro hEq
                    exact h34 (congrArg Char.toNat hEq)
                  have hnb : ¬(c = backslashChar) := by
                    intro hEq
                    exact h92 (congrArg Char.toNat hEq)
                  rw [if_neg hsep, List.cons_append, List.nil_append, jsonStringBody_cons,
                    if_neg hnq, if_neg hnb, ih]
                  rfl

theorem jsonUnmarshalExtra_marshal (d : GoStr) :
    jsonUnmarshalExtra (jsonMarshalExtra d) = some d := by
  rw [jsonMarshalExtra, jsonUnmarshalExtra, List.append_assoc, goCutPre_append,
    Option.some_bind,
    show jsonEscape d ++ [quoteChar, rbraceChar] =
      jsonEscape d ++ quoteChar :: [rbraceChar] from rfl,
    jsonStringBody_escape d [rbraceChar], Option.some_bind]
  simp

/-! ## URL strings (`net/url`: `URL.String`, `Parse`, `ParseQuery`) -/

/-- Cut a string at the first occurrence of `sep` (Go `strings.Cut`). -/
def splitFirst (sep : Char) : GoStr → Option (GoStr × GoStr)
  | [] => none
  | c :: cs =>
    if c = sep then some ([], cs)
    else (splitFirst sep cs).map fun p => (c :: p.1, p.2)

/-- The components of a parsed URL that the callback codec reads. -/
structure URLParts where
  scheme : GoStr
  host : GoStr
  path : GoStr
  rawQuery : GoStr
  fragment : GoStr
deriving DecidableEq

/-- Result of Go's `getScheme`. -/
inductive SchemeRes where
  | err
  | noScheme
  | found (scheme rest : GoStr)
deriving DecidableEq

/-- Is `c` an ASCII letter? -/
def isAlphaChar (c : Char) : Bool :=
  (65 ≤ c.toNat && c.toNat ≤ 90) || (97 ≤ c.toNat && c.toNat ≤ 122)

/-- Go's `getScheme` scan: letters extend the scheme, digits and `+ - .`
extend it when not first, a `:` ends it (an error when it comes first),
anything else means the URL has no scheme. -/
def getSchemeAux (acc : GoStr) : GoStr → SchemeRes
  | [] => .noScheme
  | c :: cs =>
    if isAlphaChar c then getSchemeAux (acc ++ [c]) cs
    else if isDigitChar c || c = '+' || c = '-' || c = '.' then
      if acc = [] then .noScheme else getSchemeAux (acc ++ [c]) cs
    else if c = ':' then
      if acc = [] then .err else .found acc cs
    else .noScheme

/-- `url.Parse`, restricted to the features the callback codec exercises:
fragment split and unescape, scheme, query split, authority and path.
Userinfo/port parsing and the colon-in-first-path-segment check are omitted;
no URL this codec emits or checks contains them. A `none` result models
`url.Parse` returning an error. -/
def urlParse (s : GoStr) : Option URLParts :=
  (match splitFirst '#' s with
   | none => some (s, ([] : GoStr))
   | some p => (UnescapeFragment p.2).map fun frag => (p.1, frag)).bind fun sf =>
  (match getSchemeAux [] sf.1 with
   | .err => none
   | .noScheme => some (([] : GoStr), sf.1)
   | .found sch r => some (goToLower sch, r)).bind fun sp =>
  (match splitFirst '?' sp.2 with
   | none => some (sp.2, ([] : GoStr))
   | some p => some p).bind fun rq =>
  if ¬ goHasPre (str "/") rq.1 ∧ sp.1 ≠ [] then
    some ⟨sp.1, [], [], rq.2, sf.2⟩
  else if goHasPre (str "//") rq.1 ∧ (sp.1 ≠ [] ∨ ¬ goHasPre (str "///") rq.1) then
    (UnescapePath
        ((splitFirst '/' (rq.1.drop 2)).elim ([] : GoStr) fun p => '/' :: p.2)).map
      fun path =>
        ⟨sp.1, (splitFirst '/' (rq.1.drop 2)).elim (rq.1.drop 2) (·.1), path, rq.2, sf.2⟩
  else
    (UnescapePath rq.1).map fun path => ⟨sp.1, [], path, rq.2, sf.2⟩

/-- `url.ParseQuery`: the `&`-separated chunks (Go stops splitting when the
remainder is empty, so a trailing `&` yields no empty final chunk). -/
def queryChunksAux : Nat → GoStr → List GoStr
  | _, [] => []
  | 0, s => [s]
  | fuel + 1, c :: cs =>
    (splitFirst '&' (c :: cs)).elim [c :: cs] fun p => p.1 :: queryChunksAux fuel p.2

/-- The `&`-separated chunks of a query string. -/
def queryChunks (s : GoStr) : List GoStr := queryChunksAux s.length s

/-- Process the chunks as `url.ParseQuery` does: a chunk containing `;` or
failing to unescape sets the error flag and is dropped, an empty chunk is
skipped, the rest are split at the first `=` and unescaped in query mode. -/
def parseQueryPairs : List GoStr → List (GoStr × GoStr) × Bool
  | [] => ([], false)
  | chunk :: rest =>
    let r := parseQueryPairs rest
    if chunk.contains ';' then (r.1, true)
    else if chunk = [] then r
    else
      let k := (splitFirst '=' chunk).elim chunk (·.1)
      let v := (splitFirst '=' chunk).elim [] (·.2)
      ((QueryUnescape k).bind fun k2 => (QueryUnescape v).map fun v2 => (k2, v2)).elim
        (r.1, true) fun kv => (kv :: r.1, r.2)

/-- `url.ParseQuery` for a caller that aborts on any error (as
`parseCallbackURL` does): the pairs, or an error when any chunk was bad. -/
def parseQuery (s : GoStr) : Except Unit (List (GoStr × GoStr)) :=
  let r := parseQueryPairs (queryChunks s)
  if r.2 then .error () else .ok r.1

/-- `params[k]`: the values of key `k` in order of appearance. -/
def valuesOf (params : List (GoStr × GoStr)) (k : GoStr) : List GoStr :=
  (params.filter fun p => p.1 = k).map (·.2)

/-! ## Callback State Codec (`putio_proxy.go`:
`formatCallbackURL` / `parseCallbackURL`) -/

/-- The configuration fields the transfer proxy reads: the Transmission
download directory, the Put.io parent directory id and the optional friend
token (empty string = unset). -/
structure Config where
  downloadDir : GoStr
  parentDirID : Int
  friendToken : GoStr
deriving DecidableEq

/-- `extraState`: the payload smuggled through the callback URL. -/
structure extraState where
  downloadDir : GoStr
deriving DecidableEq

/-- The distinct failure modes of `parseCallbackURL`. -/
inductive CallbackErr where
  | urlParseError
  | unrecognized
  | ownershipMismatch
  | queryError
  | unmarshalError
deriving DecidableEq

/-- `formatCallbackURL`: JSON-marshal the extra state, place it as the single
`x` query parameter of `test://put.test/arr` (that is exactly what
`url.Values.Encode` and `url.URL.String` produce for those fields), and put
the friend token in the fragment when one is configured. -/
def formatCallbackURL (cfg : Config) (extra : extraState) : GoStr :=
  let data := jsonMarshalExtra extra.downloadDir
  let rawQuery := QueryEscape (str "x") ++ '=' :: QueryEscape data
  let base := str "test://put.test/arr" ++ '?' :: rawQuery
  if cfg.friendToken = [] then base else base ++ '#' :: EscapeFragment cfg.friendToken

/-- `parseCallbackURL`: parse the URL, require host `put.test` and path
`/arr`, require the fragment to equal the friend token when one is
configured, then read the single `x` query parameter and JSON-unmarshal it. -/
def parseCallbackURL (cfg : Config) (callbackURL : GoStr) : Except CallbackErr extraState :=
  match urlParse callbackURL with
  | none => .error .urlParseError
  | some u =>
    if u.host ≠ str "put.test" ∨ u.path ≠ str "/arr" then .error .unrecognized
    else if cfg.friendToken ≠ [] ∧ u.fragment ≠ cfg.friendToken then
      .error .ownershipMismatch
    else
      match parseQuery u.rawQuery with
      | .error _ => .error .queryError
      | .ok params =>
        match valuesOf params (str "x") with
        | [x] =>
          match jsonUnmarshalExtra x with
          | some d => .ok ⟨d⟩
          | none => .error .unmarshalError
        | _ => .error .unrecognized

/-! ### The codec round-trip -/

theorem splitFirst_not_mem (sep : Char) (s : GoStr) (h : sep ∉ s) :
    splitFirst sep s = none := by
  induction s with
  | nil => rfl
  | cons c cs ih =>
    have hne : ¬(c = sep) := by
      intro hEq
      subst hEq
      exact h (List.mem_cons_self ..)
    rw [splitFirst, if_neg hne, ih (fun hm => h (List.mem_cons_of_mem _ hm))]
    rfl

theorem splitFirst_append (sep : Char) (a b : GoStr) (h : sep ∉ a) :
    splitFirst sep (a ++ sep :: b) = some (a, b) := by
  induction a with
  | nil => simp [splitFirst]
  | cons c cs ih =>
    have hne : ¬(c = sep) := by
      intro hEq
      subst hEq
      exact h (List.mem_cons_self ..)
    rw [List.cons_append, splitFirst, if_neg hne,
      ih (fun hm => h (List.mem_cons_of_mem _ hm))]
    rfl

theorem mem_queryEscapeBytes (bs : Bytes) (hbs : ∀ b ∈ bs, b < 256) (c : Char)
    (hc : c ∈ queryEscapeBytes bs) :
    isUnreservedByte c.toNat = true ∨ c.toNat = 43 ∨ c.toNat = 37 := by
  induction bs with
  | nil => cases hc
  | cons b rest ih =>
    have hb : b < 256 := hbs b (by simp)
    have ih := ih fun x hx => hbs x (List.mem_cons_of_mem _ hx)
    rw [queryEscapeBytes] at hc
    rcases List.mem_append.mp hc with hc | hc
    · by_cases hu : isUnreservedByte b
      · rw [if_pos hu] at hc
        have hblt : b < 128 := by
          unfold isUnreservedByte at hu
          simp at hu
          omega
        rcases List.mem_singleton.mp hc with rfl
        rw [char_toNat_ofNat_small b (by omega)]
        exact Or.inl hu
      · rw [if_neg hu] at hc
        by_cases hsp : b = 32
        · rw [if_pos hsp] at hc
          rcases List.mem_singleton.mp hc with rfl
          exact Or.inr (Or.inl rfl)
        · rw [if_neg hsp] at hc
          simp only [List.cons_append, List.nil_append, List.mem_cons,
            List.not_mem_nil, or_false] at hc
          rcases hc with rfl | hc | hc
          · exact Or.inr (Or.inr rfl)
          · subst hc
            have hr := upperHexChar_toNat_ranges (b / 16) (by omega)
            left
            unfold isUnreservedByte
            simp only [Bool.or_eq_true, Bool.and_eq_true, decide_eq_true_eq]
            rcases hr with ⟨h1, h2⟩ | ⟨h1, h2⟩ <;> omega
          · subst hc
            have hr := upperHexChar_toNat_ranges (b % 16) (by omega)
            left
            unfold isUnreservedByte
            simp only [Bool.or_eq_true, Bool.and_eq_true, decide_eq_true_eq]
            rcases hr with ⟨h1, h2⟩ | ⟨h1, h2⟩ <;> omega
    · exact ih hc

theorem mem_fragEscapeBytes (bs : Bytes) (hbs : ∀ b ∈ bs, b < 256) (c : Char)
    (hc : c ∈ fragEscapeBytes bs) :
    (isUnreservedByte c.toNat || isFragmentExtraByte c.toNat) = true ∨ c.toNat = 37 := by
  induction bs with
  | nil => cases hc
  | cons b rest ih =>
    have hb : b < 256 := hbs b (by simp)
    have ih := ih fun x hx => hbs x (List.mem_cons_of_mem _ hx)
    rw [fragEscapeBytes] at hc
    rcases List.mem_append.mp hc with hc | hc
    · by_cases hu : isUnreservedByte b || isFragmentExtraByte b
      · rw [if_pos hu] at hc
        have hblt : b < 128 := by
          unfold isUnreservedByte isFragmentExtraByte at hu
          simp at hu
          rcases hu with hu | hu <;> omega
        rcases List.mem_singleton.mp hc with rfl
        rw [char_toNat_ofNat_small b (by omega)]
        exact Or.inl hu
      · rw [if_neg hu] at hc
        simp only [List.cons_append, List.nil_append, List.mem_cons,
          List.not_mem_nil, or_false] at hc
        rcases hc with rfl | hc | hc
        · exact Or.inr rfl
        · subst hc
          have hr := upperHexChar_toNat_ranges (b / 16) (by omega)
          left
          unfold isUnreservedByte isFragmentExtraByte
          simp only [Bool.or_eq_true, Bool.and_eq_true, decide_eq_true_eq]
          rcases hr with ⟨h1, h2⟩ | ⟨h1, h2⟩ <;> omega
        · subst hc
          have hr := upperHexChar_toNat_ranges (b % 16) (by omega)
          left
          unfold isUnreservedByte isFragmentExtraByte
          simp only [Bool.or_eq_true, Bool.and_eq_true, decide_eq_true_eq]
          rcases hr with ⟨h1, h2⟩ | ⟨h1, h2⟩ <;> omega
    · exact ih hc

theorem hash_not_mem_queryEscape (s : GoStr) : ('#' : Char) ∉ QueryEscape s := by
  intro hc
  rcases mem_queryEscapeBytes _ (utf8Encode_lt_256 s) _ hc with h | h | h <;>
    revert h <;> decide

theorem amp_not_mem_queryEscape (s : GoStr) : ('&' : Char) ∉ QueryEscape s := by
  intro hc
  rcases mem_queryEscapeBytes _ (utf8Encode_lt_256 s) _ hc with h | h | h <;>
    revert h <;> decide

theorem semi_not_mem_queryEscape (s : GoStr) : (';' : Char) ∉ QueryEscape s := by
  intro hc
  rcases mem_queryEscapeBytes _ (utf8Encode_lt_256 s) _ hc with h | h | h <;>
    revert h <;> decide

theorem eq_not_mem_queryEscape (s : GoStr) : ('=' : Char) ∉ QueryEscape s := by
  intro hc
  rcases mem_queryEscapeBytes _ (utf8Encode_lt_256 s) _ hc with h | h | h <;>
    revert h <;> decide

theorem hash_not_mem_fragEscape (s : GoStr) : ('#' : Char) ∉ EscapeFragment s := by
  intro hc
  rcases mem_fragEscapeBytes _ (utf8Encode_lt_256 s) _ hc with h | h <;>
    revert h <;> decide

/-- The base of every callback URL (before the optional fragment). -/
def callbackBase (d : GoStr) : GoStr :=
  str "test://put.test/arr" ++ '?' :: 'x' :: '=' :: QueryEscape (jsonMarshalExtra d)

theorem formatCallbackURL_eq (cfg : Config) (d : GoStr) :
    formatCallbackURL cfg ⟨d⟩ =
      if cfg.friendToken = [] then callbackBase d
      else callbackBase d ++ '#' :: EscapeFragment cfg.friendToken := by
  rw [formatCallbackURL, callbackBase]
  rfl

theorem hash_not_mem_callbackBase (d : GoStr) : ('#' : Char) ∉ callbackBase d := by
  intro hm
  rw [callbackBase] at hm
  rcases List.mem_append.mp hm with h | h
  · revert h
    decide
  · simp only [List.mem_cons] at h
    rcases h with h | h | h | h
    · cases h
    · cases h
    · cases h
    · exact hash_not_mem_queryEscape _ h

theorem urlParse_callbackBase (d : GoStr) (frag : GoStr) :
    (match getSchemeAux [] (callbackBase d) with
      | .err => none
      | .noScheme => some (([] : GoStr), callbackBase d)
      | .found sch r => some (goToLower sch, r)).bind (fun sp =>
    (match splitFirst '?' sp.2 with
      | none => some (sp.2, ([] : GoStr))
      | some p => some p).bind fun rq =>
    if ¬ goHasPre (str "/") rq.1 ∧ sp.1 ≠ [] then
      some (⟨sp.1, [], [], rq.2, frag⟩ : URLParts)
    else if goHasPre (str "//") rq.1 ∧ (sp.1 ≠ [] ∨ ¬ goHasPre (str "///") rq.1) then
      (UnescapePath
          ((splitFirst '/' (rq.1.drop 2)).elim ([] : GoStr) fun p => '/' :: p.2)).map
        fun path =>
          (⟨sp.1, (splitFirst '/' (rq.1.drop 2)).elim (rq.1.drop 2) (·.1), path, rq.2,
            frag⟩ : URLParts)
    else
      (UnescapePath rq.1).map fun path => (⟨sp.1, [], path, rq.2, frag⟩ : URLParts)) =
      some ⟨str "test", str "put.test", str "/arr",
        'x' :: '=' :: QueryEscape (jsonMarshalExtra d), frag⟩ := by
  have hscheme : getSchemeAux [] (callbackBase d) =
      SchemeRes.found (str "test")
        (str "//put.test/arr" ++ '?' :: 'x' :: '=' :: QueryEscape (jsonMarshalExtra d)) := by
    rw [callbackBase]
    rfl
  rw [hscheme]
  simp only [Option.some_bind]
  have hq : splitFirst '?'
      (str "//put.test/arr" ++ '?' :: 'x' :: '=' :: QueryEscape (jsonMarshalExtra d)) =
      some (str "//put.test/arr", 'x' :: '=' :: QueryEscape (jsonMarshalExtra d)) :=
    splitFirst_append '?' _ _ (by decide)
  rw [hq]
  simp only [Option.some_bind]
  rw [if_neg (by decide), if_pos (by constructor <;> decide)]
  have hsplit : splitFirst '/' ((str "//put.test/arr").drop 2) =
      some (str "put.test", str "arr") := by
    decide
  rw [hsplit]
  have hpath : UnescapePath ('/' :: str "arr") = some (str "/arr") := by decide
  simp only [Option.elim]
  rw [hpath]
  rw [show goToLower (str "test") = str "test" by decide]
  rfl

theorem urlParse_format (cfg : Config) (d : GoStr) :
    urlParse (formatCallbackURL cfg ⟨d⟩) =
      some ⟨str "test", str "put.test", str "/arr",
        'x' :: '=' :: QueryEscape (jsonMarshalExtra d), cfg.friendToken⟩ := by
  rw [formatCallbackURL_eq]
  by_cases htok : cfg.friendToken = []
  · rw [if_pos htok, htok, urlParse,
      splitFirst_not_mem '#' (callbackBase d) (hash_not_mem_callbackBase d)]
    simp only [Option.some_bind]
    exact urlParse_callbackBase d []
  · rw [if_neg htok, urlParse,
      splitFirst_append '#' (callbackBase d) _ (hash_not_mem_callbackBase d)]
    simp only [UnescapeFragment_EscapeFragment, Option.map_some', Option.some_bind]
    exact urlParse_callbackBase d cfg.friendToken

theorem parseQuery_single_x (v : GoStr) :
    parseQuery ('x' :: '=' :: QueryEscape v) = .ok [(str "x", v)] := by
  have hamp : ('&' : Char) ∉ 'x' :: '=' :: QueryEscape v := by
    intro hm
    simp only [List.mem_cons] at hm
    rcases hm with h | h | h
    · cases h
    · cases h
    · exact amp_not_mem_queryEscape v h
  have hsemi : (';' : Char) ∉ 'x' :: '=' :: QueryEscape v := by
    intro hm
    simp only [List.mem_cons] at hm
    rcases hm with h | h | h
    · cases h
    · cases h
    · exact semi_not_mem_queryEscape v h
  have hchunks : queryChunks ('x' :: '=' :: QueryEscape v) =
      ['x' :: '=' :: QueryEscape v] := by
    rw [queryChunks, List.length_cons, List.length_cons, queryChunksAux,
      splitFirst_not_mem '&' _ hamp]
    rfl
  have hcont : (('x' :: '=' :: QueryEscape v).contains ';') = false := by
    simpa using hsemi
  have hsplit : splitFirst '=' ('x' :: '=' :: QueryEscape v) =
      some (['x'], QueryEscape v) :=
    splitFirst_append '=' ['x'] (QueryEscape v) (by decide)
  have hux : QueryUnescape ['x'] = some ['x'] := by decide
  rw [parseQuery, hchunks, parseQueryPairs]
  simp only [parseQueryPairs, hcont, hsplit, Option.elim, hux,
    QueryUnescape_QueryEscape, Option.some_bind, Option.map_some']
  rfl

/-- Decoding any callback URL this codec formats: success with the original
state when the configured tokens agree (in particular when both are unset),
and an ownership-mismatch error when a token is configured at decode time and
the encoded fragment differs from it. -/
theorem parseCallbackURL_format (cfgD cfgE : Config) (d : GoStr) :
    parseCallbackURL cfgD (formatCallbackURL cfgE ⟨d⟩) =
      if cfgD.friendToken ≠ [] ∧ cfgE.friendToken ≠ cfgD.friendToken then
        .error .ownershipMismatch
      else .ok ⟨d⟩ := by
  rw [parseCallbackURL, urlParse_format]
  simp only []
  rw [if_neg (by push_neg; constructor <;> rfl)]
  by_cases hP : cfgD.friendToken ≠ [] ∧ cfgE.friendToken ≠ cfgD.friendToken
  · rw [if_pos hP, if_pos hP]
  · rw [if_neg hP, if_neg hP, parseQuery_single_x]
    simp [valuesOf, jsonUnmarshalExtra_marshal]

/-- Claim C5: for all callback states and owner-token configurations,
decoding an encoded callback URL returns the state unchanged when the decode
token matches the encode token (in particular when no token was configured on
either side), and fails with an ownership mismatch whenever a token is
configured at decode time and the encoded fragment (the encode-side token)
differs from it. -/
theorem callback_codec_roundtrip (d : GoStr) (cfgE cfgD : Config) :
    ((cfgE.friendToken = cfgD.friendToken ∨
        (cfgE.friendToken = [] ∧ cfgD.friendToken = [])) →
      parseCallbackURL cfgD (formatCallbackURL cfgE ⟨d⟩) = .ok ⟨d⟩) ∧
    (cfgD.friendToken ≠ [] → cfgE.friendToken ≠ cfgD.friendToken →
      parseCallbackURL cfgD (formatCallbackURL cfgE ⟨d⟩) =
        .error .ownershipMismatch) := by
  constructor
  · intro h
    rw [parseCallbackURL_format, if_neg]
    rcases h with h | ⟨h1, h2⟩
    · intro hc
      exact hc.2 h
    · intro hc
      exact hc.1 h2
  · intro h1 h2
    rw [parseCallbackURL_format, if_pos ⟨h1, h2⟩]

/-- Witness for `callback_codec_roundtrip`: round-trip with matching token
`aaa`, and an ownership mismatch when decoding with token `bbb`. -/
theorem callback_codec_roundtrip_witness :
    parseCallbackURL ⟨str "/dl", 0, str "aaa"⟩
        (formatCallbackURL ⟨str "/dl", 0, str "aaa"⟩ ⟨str "/dl/tv"⟩) =
      .ok ⟨str "/dl/tv"⟩ ∧
    parseCallbackURL ⟨str "/dl", 0, str "bbb"⟩
        (formatCallbackURL ⟨str "/dl", 0, str "aaa"⟩ ⟨str "/dl/tv"⟩) =
      .error .ownershipMismatch :=
  ⟨(callback_codec_roundtrip (str "/dl/tv") ⟨str "/dl", 0, str "aaa"⟩
      ⟨str "/dl", 0, str "aaa"⟩).1 (Or.inl rfl),
   (callback_codec_roundtrip (str "/dl/tv") ⟨str "/dl", 0, str "aaa"⟩
      ⟨str "/dl", 0, str "bbb"⟩).2 (by decide) (by decide)⟩

/-! ## The remote Put.io service

State threaded explicitly through every operation, with an event trace of the
remote calls so that "performs no remote call / mutation" is expressible.
Fault-injection sets model the remote failing a given call, covering both
transport errors and the service rejecting the request (the in-memory fake
fails `Get`/`Cancel` for unknown ids the same way). -/

/-- A remote file or folder. -/
structure PFile where
  id : Int
  parentID : Int
  name : GoStr
  isDir : Bool
deriving DecidableEq

/-- One remote API call, for the trace. -/
inductive RemoteEvent where
  | listTransfers
  | getTransfer (id : Int)
  | addTransfer (source : GoStr) (parentID : Int) (callbackURL : GoStr)
  | cancelTransfer (id : Int)
  | listFiles (parentID : Int)
  | createFolder (name : GoStr) (parentID : Int)
  | deleteFile (fileID : Int)
deriving DecidableEq

/-- The remote service state. -/
structure RemoteState where
  files : List PFile
  transfers : List PutioTransfer
  nextFileID : Int
  nextTransferID : Int
  deletedFileIDs : List Int
  failGet : List Int
  failDelete : List Int
  failCancel : List Int
  events : List RemoteEvent
deriving DecidableEq

/-- Append one remote call to the trace. -/
def recordEvent (st : RemoteState) (e : RemoteEvent) : RemoteState :=
  { st with events := st.events ++ [e] }

/-- `Files.List(parent)`: the children of a folder. -/
def listFilesOp (st : RemoteState) (parentID : Int) : List PFile × RemoteState :=
  (st.files.filter fun f => f.parentID = parentID, recordEvent st (.listFiles parentID))

/-- `Files.CreateFolder(name, parent)`: a fresh folder id. -/
def createFolderOp (st : RemoteState) (name : GoStr) (parentID : Int) :
    PFile × RemoteState :=
  let f : PFile := ⟨st.nextFileID + 1, parentID, name, true⟩
  (f, { recordEvent st (.createFolder name parentID) with
        files := st.files ++ [f], nextFileID := st.nextFileID + 1 })

/-- `Transfers.Add(source, parent, callbackURL)`: a fresh transfer, initially
downloading with no file id (name and size are whatever the service derives
from the source; no claim reads them, so the source string stands in). -/
def addTransferOp (st : RemoteState) (source : GoStr) (parentID : Int)
    (callbackURL : GoStr) : PutioTransfer × RemoteState :=
  let t : PutioTransfer :=
    ⟨st.nextTransferID + 1, source, 0, 0, callbackURL, 0, str "DOWNLOADING", none⟩
  (t, { recordEvent st (.addTransfer source parentID callbackURL) with
        transfers := st.transfers ++ [t], nextTransferID := st.nextTransferID + 1 })

/-- `Transfers.List()`. -/
def listTransfersOp (st : RemoteState) : List PutioTransfer × RemoteState :=
  (st.transfers, recordEvent st .listTransfers)

/-- `Transfers.Get(id)`: fails for injected faults and for unknown ids. -/
def getTransferOp (st : RemoteState) (id : Int) :
    Except Unit PutioTransfer × RemoteState :=
  let st1 := recordEvent st (.getTransfer id)
  if id ∈ st.failGet then (.error (), st1)
  else
    match st.transfers.find? fun t => t.id = id with
    | some t => (.ok t, st1)
    | none => (.error (), st1)

/-- `Files.Delete(fileID)`. -/
def deleteFileOp (st : RemoteState) (fileID : Int) : Except Unit Unit × RemoteState :=
  let st1 := recordEvent st (.deleteFile fileID)
  if fileID ∈ st.failDelete then (.error (), st1)
  else (.ok (), { st1 with deletedFileIDs := st1.deletedFileIDs ++ [fileID] })

/-- `Transfers.Cancel(id)`: removes the transfer; fails for injected faults
and unknown ids. -/
def cancelTransferOp (st : RemoteState) (id : Int) : Except Unit Unit × RemoteState :=
  let st1 := recordEvent st (.cancelTransfer id)
  if id ∈ st.failCancel then (.error (), st1)
  else if (st.transfers.find? fun t => t.id = id).isSome then
    (.ok (), { st1 with transfers := st1.transfers.filter fun t => ¬(t.id = id) })
  else (.error (), st1)

/-! ## Transfer Proxy (`putio_proxy.go`) -/

/-- The proxy's failure modes (each Go error message collapsed to its kind). -/
inductive ProxyErr where
  | invalidDownloadDir
  | remote
  | invalidTorrent
deriving DecidableEq

instance {ε α : Type} [DecidableEq ε] [DecidableEq α] : DecidableEq (Except ε α) :=
  fun a b =>
    match a, b with
    | .error x, .error y => decidable_of_iff (x = y) (by simp)
    | .ok x, .ok y => decidable_of_iff (x = y) (by simp)
    | .error _, .ok _ => .isFalse (by intro h; cases h)
    | .ok _, .error _ => .isFalse (by intro h; cases h)

/-- The directory walk of `createAndReturnDirID`: for each path segment, list
the current folder's children, descend into an existing directory of that
name or create it. -/
def walkParts (parts : List GoStr) (dir : Int) (st : RemoteState) :
    Except ProxyErr Int × RemoteState :=
  match parts with
  | [] => (.ok dir, st)
  | part :: rest =>
    let lr := listFilesOp st dir
    match lr.1.find? fun child => child.name = part && child.isDir with
    | some child => walkParts rest child.id lr.2
    | none =>
      let cr := createFolderOp lr.2 part dir
      walkParts rest cr.1.id cr.2

/-- `createAndReturnDirID`: trim the configured download dir off the path as a
string prefix (error when nothing was trimmed), drop one leading separator,
split into segments and walk/create them from the configured parent folder. -/
def createAndReturnDirID (cfg : Config) (path : GoStr) (st : RemoteState) :
    Except ProxyErr Int × RemoteState :=
  let dir := cfg.parentDirID
  let subpath := goTrimPre cfg.downloadDir path
  if subpath = path then (.error .invalidDownloadDir, st)
  else if subpath = [] then (.ok dir, st)
  else
    let subpath2 := if goHasPre (str "/") subpath then subpath.drop 1 else subpath
    walkParts (subpath2.splitOn '/') dir st

/-- `AddTransfer`: resolve the directory, encode the callback state with the
requested logical directory, add the transfer remotely, and return it with
`DownloadDir` synthesized as `{downloadDir}/{newID}`. -/
def AddTransfer (cfg : Config) (magnet downloadDir : GoStr) (st : RemoteState) :
    Except ProxyErr Transfer × RemoteState :=
  match createAndReturnDirID cfg downloadDir st with
  | (.error e, st1) => (.error e, st1)
  | (.ok parentID, st1) =>
    let callbackURL := formatCallbackURL cfg ⟨downloadDir⟩
    let ar := addTransferOp st1 magnet parentID callbackURL
    (.ok ⟨ar.1, downloadDir ++ '/' :: intToDec ar.1.id⟩, ar.2)

/-- `GetTransfers`: list the remote transfers and keep, in order, those whose
callback URL parses under this instance's configuration, annotated with the
decoded download directory. -/
def GetTransfers (cfg : Config) (st : RemoteState) :
    Except ProxyErr (List Transfer) × RemoteState :=
  let lr := listTransfersOp st
  (.ok (lr.1.filterMap fun t =>
    match parseCallbackURL cfg t.callbackURL with
    | .error _ => none
    | .ok extra => some ⟨t, extra.downloadDir⟩), lr.2)

/-- `RemoveTransfers`: for each id in order, fetch the transfer (first remote
error aborts), skip it silently when its callback does not parse, otherwise
delete its file when requested and a non-zero file id is present, then cancel
it; the first remote error aborts with the state as it stands. -/
def RemoveTransfers (cfg : Config) (removeFiles : Bool) :
    List Int → RemoteState → Except ProxyErr Unit × RemoteState
  | [], st => (.ok (), st)
  | id :: rest, st =>
    match getTransferOp st id with
    | (.error _, st1) => (.error .remote, st1)
    | (.ok t, st1) =>
      match parseCallbackURL cfg t.callbackURL with
      | .error _ => RemoveTransfers cfg removeFiles rest st1
      | .ok _ =>
        if removeFiles ∧ t.fileID ≠ 0 then
          match deleteFileOp st1 t.fileID with
          | (.error _, st2) => (.error .remote, st2)
          | (.ok _, st2) =>
            match cancelTransferOp st2 t.id with
            | (.error _, st3) => (.error .remote, st3)
            | (.ok _, st3) => RemoveTransfers cfg removeFiles rest st3
        else
          match cancelTransferOp st1 t.id with
          | (.error _, st3) => (.error .remote, st3)
          | (.ok _, st3) => RemoveTransfers cfg removeFiles rest st3

/-! ## Torrent upload (`UploadTorrent`, claim C8)

The bencode codec, the SHA-1 digest and the base32 encoding live outside this
repository (the bencode library and the Go standard library), so they are
modelled from the spec's description — "decodes the bencoded torrent-file
bytes into its dictionary form", "re-serializes the `info` dictionary back to
its canonical bencoded byte form and computes its cryptographic digest" —
using the standard bencode grammar (canonical form sorts dictionary keys
bytewise; a dictionary read into a Go map keeps the last duplicate key),
standard SHA-1 and RFC 4648 standard base32. Torrent-file strings are kept as
raw bytes, as in Go, where a string is a byte sequence. -/

/-- A decoded bencode value: the `interface\x7b\x7d` shapes the Go decoder
produces (int64, string, list, dictionary). -/
inductive BValue where
  | int (n : Int)
  | bstr (s : Bytes)
  | list (l : List BValue)
  | dict (d : List (Bytes × BValue))

/-- Leading ASCII decimal digits of a byte string, as digit values. -/
def takeDigits : Bytes → List Nat × Bytes
  | [] => ([], [])
  | b :: rest =>
    if 48 ≤ b ∧ b ≤ 57 then
      let r := takeDigits rest
      ((b - 48) :: r.1, r.2)
    else ([], b :: rest)

/-- Numeric value of a digit-value list. -/
def digitsNat (ds : List Nat) : Nat := ds.foldl (fun a d => a * 10 + d) 0

/-- Parse a bencode string `<len>:<bytes>` from the head of the input. -/
def parseBStrBody (bs : Bytes) : Option (Bytes × Bytes) :=
  match takeDigits bs with
  | ([], _) => none
  | (d :: ds, rest) =>
    match rest with
    | 58 :: rest2 =>
      let n := digitsNat (d :: ds)
      if n ≤ rest2.length then some (rest2.take n, rest2.drop n) else none
    | _ => none

/-- Parse the body of a bencode integer (after the `i`): optional minus sign,
digits, and the closing `e`. -/
def parseBIntBody (bs : Bytes) : Option (Int × Bytes) :=
  match bs with
  | 45 :: rest =>
    (match takeDigits rest with
     | ([], _) => none
     | (d :: ds, rest2) =>
       match rest2 with
       | 101 :: rest3 => some (-(digitsNat (d :: ds) : Int), rest3)
       | _ => none)
  | _ =>
    match takeDigits bs with
    | ([], _) => none
    | (d :: ds, rest2) =>
      match rest2 with
      | 101 :: rest3 => some ((digitsNat (d :: ds) : Int), rest3)
      | _ => none

/-- The bencode parser, on fuel. Mode 0 parses one value; mode 1 parses list
elements up to the closing `e` (yielding `.list`); mode 2 parses dictionary
entries up to the closing `e` (yielding `.dict` in wire order). -/
def parseB : Nat → Nat → Bytes → Option (BValue × Bytes)
  | 0, _, _ => none
  | fuel + 1, 0, bs =>
    match bs with
    | [] => none
    | 105 :: rest => (parseBIntBody rest).map fun p => (BValue.int p.1, p.2)
    | 108 :: rest => parseB fuel 1 rest
    | 100 :: rest => parseB fuel 2 rest
    | _ => (parseBStrBody bs).map fun p => (BValue.bstr p.1, p.2)
  | fuel + 1, 1, bs =>
    match bs with
    | 101 :: rest => some (BValue.list [], rest)
    | _ =>
      (parseB fuel 0 bs).bind fun p =>
        (parseB fuel 1 p.2).bind fun q =>
          match q.1 with
          | BValue.list l => some (BValue.list (p.1 :: l), q.2)
          | _ => none
  | fuel + 1, _, bs =>
    match bs with
    | 101 :: rest => some (BValue.dict [], rest)
    | _ =>
      (parseBStrBody bs).bind fun k =>
        (parseB fuel 0 k.2).bind fun v =>
          (parseB fuel 2 v.2).bind fun q =>
            match q.1 with
            | BValue.dict d => some (BValue.dict ((k.1, v.1) :: d), q.2)
            | _ => none

/-- `bencode.Decode`: read one bencode value off the byte stream (the reader
ignores anything after the first complete value). The fuel covers any nesting
the input length admits. -/
def bencodeDecode (bs : Bytes) : Option BValue :=
  (parseB (2 * bs.length + 2) 0 bs).map (·.1)

/-- Bytewise lexicographic order on byte strings (Go `string <`). -/
def bytesLtB : Bytes → Bytes → Bool
  | [], [] => false
  | [], _ :: _ => true
  | _ :: _, [] => false
  | a :: as, b :: bs => if a < b then true else if b < a then false else bytesLtB as bs

/-- Replace the binding of `k` in place, or append it (Go map write). -/
def bdictPut : List (Bytes × BValue) → Bytes → BValue → List (Bytes × BValue)
  | [], k, v => [(k, v)]
  | (k2, v2) :: rest, k, v =>
    if k2 = k then (k2, v) :: rest else (k2, v2) :: bdictPut rest k v

/-- Reading a decoded dictionary into a Go map: the last duplicate key wins. -/
def bdictCollapse (d : List (Bytes × BValue)) : List (Bytes × BValue) :=
  d.foldl (fun acc p => bdictPut acc p.1 p.2) []

/-- Insertion into a key-sorted association list. -/
def insertSortedKey (p : Bytes × BValue) :
    List (Bytes × BValue) → List (Bytes × BValue)
  | [] => [p]
  | q :: qs => if bytesLtB p.1 q.1 then p :: q :: qs else q :: insertSortedKey p qs

/-- Sort dictionary entries by key (the marshaller's canonical key order). -/
def bdictSort (d : List (Bytes × BValue)) : List (Bytes × BValue) :=
  d.foldl (fun acc p => insertSortedKey p acc) []

/-- Go map index on a decoded dictionary. -/
def bdictGet (d : List (Bytes × BValue)) (k : Bytes) : Option BValue :=
  ((bdictCollapse d).find? fun p => p.1 = k).map (·.2)

/-- `bencode.Marshal`, on fuel bounding the nesting depth: canonical bencode
of a value, dictionaries with collapsed duplicates and bytewise-sorted keys. -/
def bencodeMarshalF : Nat → BValue → Bytes
  | 0, _ => []
  | fuel + 1, v =>
    match v with
    | .int n => 105 :: (intToDec n).map Char.toNat ++ [101]
    | .bstr s => (natToDigits s.length).map Char.toNat ++ 58 :: s
    | .list l => 108 :: (l.map (bencodeMarshalF fuel)).flatten ++ [101]
    | .dict d =>
      100 :: ((bdictSort (bdictCollapse d)).map fun p =>
        (natToDigits p.1.length).map Char.toNat ++ 58 :: p.1 ++
          bencodeMarshalF fuel p.2).flatten ++ [101]

/-- Left-rotation of a 32-bit word. -/
def rotl32 (k n : Nat) : Nat := (n * 2 ^ k) % 2 ^ 32 + n / 2 ^ (32 - k)

/-- The SHA-1 round constant for round `i`. -/
def sha1K (i : Nat) : Nat :=
  if i < 20 then 1518500249
  else if i < 40 then 1859775393
  else if i < 60 then 2400959708
  else 3395469782

/-- The SHA-1 mixing function for round `i`. -/
def sha1F (i b c d : Nat) : Nat :=
  if i < 20 then (b &&& c) ||| ((b ^^^ (2 ^ 32 - 1)) &&& d)
  else if i < 40 then b ^^^ c ^^^ d
  else if i < 60 then (b &&& c) ||| (b &&& d) ||| (c &&& d)
  else b ^^^ c ^^^ d

/-- The first 16 big-endian 32-bit words of a 64-byte block. -/
def initW (block : Bytes) : List Nat :=
  (List.range 16).map fun i =>
    ((block.getD (4 * i) 0 * 256 + block.getD (4 * i + 1) 0) * 256 +
      block.getD (4 * i + 2) 0) * 256 + block.getD (4 * i + 3) 0

/-- Extend the message schedule by `k` further words. -/
def extendW : Nat → List Nat → List Nat
  | 0, w => w
  | k + 1, w =>
    extendW k (w ++ [rotl32 1 (((w.getD (w.length - 3) 0 ^^^ w.getD (w.length - 8) 0) ^^^
      w.getD (w.length - 14) 0) ^^^ w.getD (w.length - 16) 0)])

/-- One SHA-1 round on the five-word state. -/
def sha1Round (i wi : Nat) (s : Nat × Nat × Nat × Nat × Nat) :
    Nat × Nat × Nat × Nat × Nat :=
  match s with
  | (a, b, c, d, e) =>
    ((rotl32 5 a + sha1F i b c d + e + sha1K i + wi) % 2 ^ 32, a, rotl32 30 b, c, d)

/-- Process one 64-byte block into the running hash state. -/
def processBlock (h : Nat × Nat × Nat × Nat × Nat) (block : Bytes) :
    Nat × Nat × Nat × Nat × Nat :=
  let w := extendW 64 (initW block)
  let r := ((List.range 80).zip w).foldl (fun s p => sha1Round p.1 p.2 s) h
  match h, r with
  | (h0, h1, h2, h3, h4), (a, b, c, d, e) =>
    ((h0 + a) % 2 ^ 32, (h1 + b) % 2 ^ 32, (h2 + c) % 2 ^ 32,
      (h3 + d) % 2 ^ 32, (h4 + e) % 2 ^ 32)

/-- Big-endian 8-byte rendering of the bit length. -/
def be64 (n : Nat) : Bytes :=
  [n / 2 ^ 56 % 256, n / 2 ^ 48 % 256, n / 2 ^ 40 % 256, n / 2 ^ 32 % 256,
    n / 2 ^ 24 % 256, n / 2 ^ 16 % 256, n / 2 ^ 8 % 256, n % 256]

/-- SHA-1 message padding to a multiple of 64 bytes. -/
def sha1Pad (msg : Bytes) : Bytes :=
  msg ++ 128 :: List.replicate ((56 - (msg.length + 1) % 64) % 64) 0 ++
    be64 (msg.length * 8)

/-- Split into 64-byte blocks (fuel-driven; the fuel always suffices). -/
def chunks64Aux : Nat → Bytes → List Bytes
  | 0, _ => []
  | _ + 1, [] => []
  | fuel + 1, bs => bs.take 64 :: chunks64Aux fuel (bs.drop 64)

/-- Big-endian 4-byte rendering of a 32-bit word. -/
def be32out (n : Nat) : Bytes :=
  [n / 2 ^ 24 % 256, n / 2 ^ 16 % 256, n / 2 ^ 8 % 256, n % 256]

/-- `sha1.Sum`: the 20-byte SHA-1 digest. -/
def sha1Bytes (msg : Bytes) : Bytes :=
  let padded := sha1Pad msg
  match (chunks64Aux padded.length padded).foldl processBlock
      (1732584193, 4023233417, 2562383102, 271733878, 3285377520) with
  | (h0, h1, h2, h3, h4) =>
    be32out h0 ++ be32out h1 ++ be32out h2 ++ be32out h3 ++ be32out h4

/-- The RFC 4648 standard base32 alphabet character for a 5-bit value. -/
def base32Char (n : Nat) : Char :=
  if n < 26 then Char.ofNat (65 + n) else Char.ofNat (50 + (n - 26))

/-- The first `count` base32 characters of a 40-bit group value. -/
def b32chars (val count : Nat) : GoStr :=
  ((List.range 8).take count).map fun i => base32Char (val / 2 ^ (35 - 5 * i) % 32)

/-- `base32.StdEncoding.EncodeToString`. -/
def base32Enc : Bytes → GoStr
  | [] => []
  | b0 :: b1 :: b2 :: b3 :: b4 :: rest =>
    b32chars ((((b0 * 256 + b1) * 256 + b2) * 256 + b3) * 256 + b4) 8 ++ base32Enc rest
  | [b0] => b32chars (b0 * 2 ^ 32) 2 ++ str "======"
  | [b0, b1] => b32chars ((b0 * 256 + b1) * 2 ^ 24) 4 ++ str "===="
  | [b0, b1, b2] => b32chars (((b0 * 256 + b1) * 256 + b2) * 2 ^ 16) 5 ++ str "==="
  | [b0, b1, b2, b3] =>
    b32chars ((((b0 * 256 + b1) * 256 + b2) * 256 + b3) * 2 ^ 8) 7 ++ str "="

/-- The magnet URI `UploadTorrent` synthesizes from the decoded torrent
dictionary and the re-serialized `info` value: the base32 SHA-1 digest, then
`dn`/`xl` when the `info` dictionary carries a string name / integer length,
then `tr` when the top level carries a string announce URL. -/
def uploadMagnet (torrent : List (Bytes × BValue)) (info : BValue)
    (infoFuel : Nat) : GoStr :=
  let digest := base32Enc (sha1Bytes (bencodeMarshalF infoFuel info))
  let m0 := str "magnet:?xt=urn:btih:" ++ digest
  let m1 :=
    match info with
    | .dict infoD =>
      (match bdictGet infoD ((str "name").map Char.toNat) with
       | some (.bstr name) => m0 ++ str "&dn=" ++ queryEscapeBytes name
       | _ => m0) ++
        (match bdictGet infoD ((str "length").map Char.toNat) with
         | some (.int len) => str "&xl=" ++ intToDec len
         | _ => [])
    | _ => m0
  match bdictGet torrent ((str "announce").map Char.toNat) with
  | some (.bstr tracker) => m1 ++ str "&tr=" ++ queryEscapeBytes tracker
  | _ => m1

/-- `UploadTorrent`: decode the torrent-file bytes; fail with the
invalid-torrent error when decoding fails, the top level is not a dictionary,
or the `info` key is absent (the Go code then marshals a nil interface, which
the bencode marshaller rejects); otherwise synthesize the magnet URI from the
re-serialized `info` value and delegate to `AddTransfer`. -/
def UploadTorrent (cfg : Config) (file : Bytes) (downloadDir : GoStr)
    (st : RemoteState) : Except ProxyErr Transfer × RemoteState :=
  match bencodeDecode file with
  | none => (.error .invalidTorrent, st)
  | some v =>
    match v with
    | .dict torrent =>
      match bdictGet torrent ((str "info").map Char.toNat) with
      | none => (.error .invalidTorrent, st)
      | some info =>
        AddTransfer cfg (uploadMagnet torrent info (file.length + 1)) downloadDir st
    | _ => (.error .invalidTorrent, st)

/-! ## Protocol adapters (claim C9)

Two generations of the RPC dispatcher coexist in the tree: the handler of
part_003 (subpackage layout) and `handlePostRPC` of part_007 (flat layout,
wired to the transfer proxy embedded above). The HTTP plumbing — JSON body
decoding, response body rendering — is outside the modelled outcome; a
request arrives already decoded, and an outcome records only the response
class the handler commits to (success / bad request / internal error), which
is all any claim reads. -/

/-- A decoded JSON argument value (`any` in the Go request struct). -/
inductive JsonVal where
  | str (s : GoStr)
  | num (n : Int)
  | bool (b : Bool)
  | arr (l : List JsonVal)
  | null

/-- Go type assertion `.(string)`. -/
def JsonVal.asStr : JsonVal → Option GoStr
  | .str s => some s
  | _ => none

/-- Go type assertion `.(bool)`. -/
def JsonVal.asBool : JsonVal → Option Bool
  | .bool b => some b
  | _ => none

/-- Go type assertion `.([]any)`. -/
def JsonVal.asArr : JsonVal → Option (List JsonVal)
  | .arr l => some l
  | _ => none

/-- An inbound RPC request, already JSON-decoded. -/
structure Request where
  method : GoStr
  arguments : List (GoStr × JsonVal)

/-- Map index into the decoded arguments object. -/
def argGet (args : List (GoStr × JsonVal)) (k : GoStr) : Option JsonVal :=
  (args.find? fun p => p.1 = k).map (·.2)

/-- The response class a handler commits to. -/
inductive RPCOutcome where
  | success
  | badRequest
  | internalError
deriving DecidableEq

/-- Value of one standard base64 alphabet character. -/
def b64Val (c : Char) : Option Nat :=
  if 65 ≤ c.toNat ∧ c.toNat ≤ 90 then some (c.toNat - 65)
  else if 97 ≤ c.toNat ∧ c.toNat ≤ 122 then some (c.toNat - 97 + 26)
  else if 48 ≤ c.toNat ∧ c.toNat ≤ 57 then some (c.toNat - 48 + 52)
  else if c = '+' then some 62
  else if c = '/' then some 63
  else none

/-- `base64.StdEncoding.DecodeString`: four-character groups, `=`-padded at
the end only (newline skipping not modelled; no caller feeds newlines). -/
def base64Decode : GoStr → Option Bytes
  | [] => some []
  | [a, b, '=', '='] =>
    (b64Val a).bind fun va => (b64Val b).map fun vb => [va * 4 + vb / 16]
  | [a, b, c, '='] =>
    (b64Val a).bind fun va => (b64Val b).bind fun vb => (b64Val c).map fun vc =>
      [va * 4 + vb / 16, vb % 16 * 16 + vc / 4]
  | a :: b :: c :: d :: rest =>
    (b64Val a).bind fun va => (b64Val b).bind fun vb => (b64Val c).bind fun vc =>
      (b64Val d).bind fun vd =>
        (base64Decode rest).map fun tail =>
          (va * 4 + vb / 16) :: (vb % 16 * 16 + vc / 4) :: (vc % 4 * 64 + vd) :: tail
  | _ => none

/-- The string ids of a `torrent-remove` request, parsed through the hash
codec; any non-string or unparsable id fails the whole request. -/
def parseRemoveIDs : List JsonVal → Option (List Int)
  | [] => some []
  | v :: rest =>
    v.asStr.bind fun hash =>
      (ParseTorrentHash hash).bind fun id =>
        (parseRemoveIDs rest).map fun tail => id :: tail

/-- `parseTorrentRemoveArgs`: the required `delete-local-data` boolean and
`ids` array. -/
def parseTorrentRemoveArgs (args : List (GoStr × JsonVal)) :
    Option (Bool × List Int) :=
  ((argGet args (str "delete-local-data")).bind JsonVal.asBool).bind fun del =>
    ((argGet args (str "ids")).bind JsonVal.asArr).bind fun ids =>
      (parseRemoveIDs ids).map fun tids => (del, tids)

/-- `handlePostRPC` (part_007, flat layout): dispatch on the method —
`session-get` answers from configuration; `torrent-add` resolves the optional
`download-dir` and requires `filename` (magnet) or `metainfo` (base64 torrent
file); `torrent-get` lists; `torrent-remove` parses its arguments and
removes; anything else is a bad request. -/
def handlePostRPC (downloadDir : GoStr) (cfg : Config) (req : Request)
    (st : RemoteState) : RPCOutcome × RemoteState :=
  if req.method = str "session-get" then (.success, st)
  else if req.method = str "torrent-add" then
    let dir :=
      match (argGet req.arguments (str "download-dir")).bind JsonVal.asStr with
      | some d => d
      | none => downloadDir
    match (argGet req.arguments (str "filename")).bind JsonVal.asStr with
    | some filename =>
      match AddTransfer cfg filename dir st with
      | (.error _, st2) => (.internalError, st2)
      | (.ok _, st2) => (.success, st2)
    | none =>
      match (argGet req.arguments (str "metainfo")).bind JsonVal.asStr with
      | some metainfo =>
        match base64Decode metainfo with
        | none => (.internalError, st)
        | some torrent =>
          match UploadTorrent cfg torrent dir st with
          | (.error _, st2) => (.internalError, st2)
          | (.ok _, st2) => (.success, st2)
      | none => (.badRequest, st)
  else if req.method = str "torrent-get" then
    match GetTransfers cfg st with
    | (.error _, st2) => (.internalError, st2)
    | (.ok _, st2) => (.success, st2)
  else if req.method = str "torrent-remove" then
    match parseTorrentRemoveArgs req.arguments with
    | none => (.badRequest, st)
    | some (del, ids) =>
      match RemoveTransfers cfg del ids st with
      | (.error _, st2) => (.internalError, st2)
      | (.ok _, st2) => (.success, st2)
  else (.badRequest, st)

/-- `transmissionHandler.handleRPC` (part_003, subpackage layout): the switch
over the method, with the bodies of the four real operations — calls into
that generation's client, outside the lines this dispatch is cited for —
passed in as the functions they are in the source. `torrent-set` and
`queue-move-top` are deliberate no-ops answered with success; any other
unknown method is a bad request; a branch error is an internal error. -/
def handleRPC (fGet : RemoteState → Except Unit Unit × RemoteState)
    (fAdd fRemove : List (GoStr × JsonVal) → RemoteState → Except Unit Unit × RemoteState)
    (req : Request) (st : RemoteState) : RPCOutcome × RemoteState :=
  if req.method = str "session-get" then (.success, st)
  else if req.method = str "torrent-get" then
    match fGet st with
    | (.error _, st2) => (.internalError, st2)
    | (.ok _, st2) => (.success, st2)
  else if req.method = str "torrent-add" then
    match fAdd req.arguments st with
    | (.error _, st2) => (.internalError, st2)
    | (.ok _, st2) => (.success, st2)
  else if req.method = str "torrent-remove" then
    match fRemove req.arguments st with
    | (.error _, st2) => (.internalError, st2)
    | (.ok _, st2) => (.success, st2)
  else if req.method = str "torrent-set" ∨ req.method = str "queue-move-top" then
    (.success, st)
  else (.badRequest, st)

/-- C9: only one of the two dispatcher generations implements the benign
no-op acceptance. The current `handlePostRPC` rejects `torrent-set` — a
method outside the four real operations that legitimate callers send — with
a bad request instead of the claimed no-op success. -/
theorem noop_methods_counterexample :
    handlePostRPC (str "/dl") ⟨str "/dl", 0, []⟩ ⟨str "torrent-set", []⟩
        ⟨[], [], 0, 0, [], [], [], [], []⟩ =
      (.badRequest, ⟨[], [], 0, 0, [], [], [], [], []⟩) ∧
    str "torrent-set" ∉
      [str "session-get", str "torrent-get", str "torrent-add",
        str "torrent-remove"] := by
  constructor
  · rfl
  · decide

/-- C9 (amended): for a method outside \x7bsession-get, torrent-get,
torrent-add, torrent-remove\x7d, the part_003 dispatcher returns success for
the two benign no-ops `torrent-set` and `queue-move-top` — without invoking
any transfer operation: the remote state, including its event trace, is
untouched regardless of what the four real branches would do — and rejects
every other method as a bad request; the part_007 dispatcher rejects every
such method, the two benign no-ops included, as a bad request. -/
theorem unknown_methods_dispatch
    (fGet : RemoteState → Except Unit Unit × RemoteState)
    (fAdd fRemove : List (GoStr × JsonVal) → RemoteState → Except Unit Unit × RemoteState)
    (downloadDir : GoStr) (cfg : Config) (req : Request) (st : RemoteState)
    (h : req.method ∉
      [str "session-get", str "torrent-get", str "torrent-add",
        str "torrent-remove"]) :
    handleRPC fGet fAdd fRemove req st =
      (if req.method = str "torrent-set" ∨ req.method = str "queue-move-top"
       then (.success, st) else (.badRequest, st)) ∧
    handlePostRPC downloadDir cfg req st = (.badRequest, st) := by
  simp only [List.mem_cons, List.mem_singleton, not_or] at h
  obtain ⟨h1, h2, h3, h4, -⟩ := h
  constructor
  · unfold handleRPC
    rw [if_neg h1, if_neg h2, if_neg h3, if_neg h4]
  · unfold handlePostRPC
    rw [if_neg h1, if_neg h3, if_neg h2, if_neg h4]

theorem unknown_methods_dispatch_witness :
    (str "queue-move-top" ∉
      [str "session-get", str "torrent-get", str "torrent-add",
        str "torrent-remove"]) ∧
    (handleRPC (fun st => (.ok (), st)) (fun _ st => (.ok (), st))
        (fun _ st => (.ok (), st)) ⟨str "queue-move-top", []⟩
        ⟨[], [], 0, 0, [], [], [], [], []⟩ =
      (if str "queue-move-top" = str "torrent-set" ∨
          str "queue-move-top" = str "queue-move-top"
       then (.success, ⟨[], [], 0, 0, [], [], [], [], []⟩)
       else (.badRequest, ⟨[], [], 0, 0, [], [], [], [], []⟩)) ∧
      handlePostRPC (str "/dl") ⟨str "/dl", 0, []⟩ ⟨str "queue-move-top", []⟩
          ⟨[], [], 0, 0, [], [], [], [], []⟩ =
        (.badRequest, ⟨[], [], 0, 0, [], [], [], [], []⟩)) :=
  ⟨by decide,
   unknown_methods_dispatch (fun st => (.ok (), st)) (fun _ st => (.ok (), st))
     (fun _ st => (.ok (), st)) (str "/dl") ⟨str "/dl", 0, []⟩
     ⟨str "queue-move-top", []⟩ ⟨[], [], 0, 0, [], [], [], [], []⟩ (by decide)⟩

/-- C8: `UploadTorrent` fails with the invalid-torrent error — adding no
transfer and leaving the remote state untouched — exactly when the bencode
decoding of the file fails, when the decoded top level is not a dictionary,
or when the dictionary has no `info` entry; and for every decodable
dictionary with an `info` entry it delegates to `AddTransfer` with the magnet
URI synthesized from the re-serialized `info` value (`magnet:?xt=urn:btih:`
plus the base32 SHA-1 digest, with `dn`, `xl` and `tr` appended exactly when
the decoded file carries them). -/
theorem uploadTorrent_spec (cfg : Config) (file : Bytes) (dir : GoStr)
    (st : RemoteState) :
    (bencodeDecode file = none →
      UploadTorrent cfg file dir st = (.error .invalidTorrent, st)) ∧
    (∀ v, bencodeDecode file = some v → (∀ d, v ≠ .dict d) →
      UploadTorrent cfg file dir st = (.error .invalidTorrent, st)) ∧
    (∀ torrent, bencodeDecode file = some (.dict torrent) →
      bdictGet torrent ((str "info").map Char.toNat) = none →
      UploadTorrent cfg file dir st = (.error .invalidTorrent, st)) ∧
    (∀ torrent info, bencodeDecode file = some (.dict torrent) →
      bdictGet torrent ((str "info").map Char.toNat) = some info →
      UploadTorrent cfg file dir st =
        AddTransfer cfg (uploadMagnet torrent info (file.length + 1)) dir st) := by
  refine ⟨?_, ?_, ?_, ?_⟩
  · intro h
    unfold UploadTorrent
    rw [h]
  · intro v hv hnd
    unfold UploadTorrent
    rw [hv]
    rcases v with n | s | l | d
    · rfl
    · rfl
    · rfl
    · exact absurd rfl (hnd d)
  · intro torrent hdec hget
    unfold UploadTorrent
    rw [hdec]
    simp only []
    rw [hget]
  · intro torrent info hdec hget
    unfold UploadTorrent
    rw [hdec]
    simp only []
    rw [hget]

theorem uploadTorrent_spec_witness :
    bencodeDecode ((str "d8:announce3:url4:infod6:lengthi5e4:name3:fooee").map
        Char.toNat) =
      some (.dict
        [((str "announce").map Char.toNat, .bstr ((str "url").map Char.toNat)),
         ((str "info").map Char.toNat,
           .dict [((str "length").map Char.toNat, .int 5),
                  ((str "name").map Char.toNat, .bstr ((str "foo").map Char.toNat))])]) ∧
    bdictGet
        [((str "announce").map Char.toNat, .bstr ((str "url").map Char.toNat)),
         ((str "info").map Char.toNat,
           .dict [((str "length").map Char.toNat, .int 5),
                  ((str "name").map Char.toNat, .bstr ((str "foo").map Char.toNat))])]
        ((str "info").map Char.toNat) =
      some (.dict [((str "length").map Char.toNat, .int 5),
                   ((str "name").map Char.toNat, .bstr ((str "foo").map Char.toNat))]) ∧
    UploadTorrent ⟨str "/dl", 0, []⟩
        ((str "d8:announce3:url4:infod6:lengthi5e4:name3:fooee").map Char.toNat)
        (str "/dl") ⟨[], [], 0, 0, [], [], [], [], []⟩ =
      AddTransfer ⟨str "/dl", 0, []⟩
        (uploadMagnet
          [((str "announce").map Char.toNat, .bstr ((str "url").map Char.toNat)),
           ((str "info").map Char.toNat,
             .dict [((str "length").map Char.toNat, .int 5),
                    ((str "name").map Char.toNat, .bstr ((str "foo").map Char.toNat))])]
          (.dict [((str "length").map Char.toNat, .int 5),
                  ((str "name").map Char.toNat, .bstr ((str "foo").map Char.toNat))])
          (((str "d8:announce3:url4:infod6:lengthi5e4:name3:fooee").map
              Char.toNat).length + 1))
        (str "/dl") ⟨[], [], 0, 0, [], [], [], [], []⟩ :=
  ⟨rfl, rfl,
   (uploadTorrent_spec ⟨str "/dl", 0, []⟩
       ((str "d8:announce3:url4:infod6:lengthi5e4:name3:fooee").map Char.toNat)
       (str "/dl") ⟨[], [], 0, 0, [], [], [], [], []⟩).2.2.2
     [((str "announce").map Char.toNat, .bstr ((str "url").map Char.toNat)),
      ((str "info").map Char.toNat,
        .dict [((str "length").map Char.toNat, .int 5),
               ((str "name").map Char.toNat, .bstr ((str "foo").map Char.toNat))])]
     (.dict [((str "length").map Char.toNat, .int 5),
             ((str "name").map Char.toNat, .bstr ((str "foo").map Char.toNat))])
     rfl rfl⟩

/-! ## Sequential removal (claim C7)

Claim-shaped decomposition: one per-id step, and a driver that runs the steps
in list order and stops at the first error, keeping the state reached so far. -/

/-- The body of the `RemoveTransfers` loop for a single id: fetch the
transfer; an unowned callback is skipped (success, nothing else done); for an
owned one, delete its file exactly when requested and the file id is non-zero,
then cancel the transfer; any remote error surfaces immediately. -/
def removeStep (cfg : Config) (b : Bool) (id : Int) (st : RemoteState) :
    Except ProxyErr Unit × RemoteState :=
  match getTransferOp st id with
  | (.error _, st1) => (.error .remote, st1)
  | (.ok t, st1) =>
    match parseCallbackURL cfg t.callbackURL with
    | .error _ => (.ok (), st1)
    | .ok _ =>
      if b ∧ t.fileID ≠ 0 then
        match deleteFileOp st1 t.fileID with
        | (.error _, st2) => (.error .remote, st2)
        | (.ok _, st2) =>
          match cancelTransferOp st2 t.id with
          | (.error _, st3) => (.error .remote, st3)
          | (.ok _, st3) => (.ok (), st3)
      else
        match cancelTransferOp st1 t.id with
        | (.error _, st3) => (.error .remote, st3)
        | (.ok _, st3) => (.ok (), st3)

/-- Run a per-id step over the ids in list order; the first error stops the
run and is returned together with the state as it stood at the failure. -/
def runSteps (f : Int → RemoteState → Except ProxyErr Unit × RemoteState) :
    List Int → RemoteState → Except ProxyErr Unit × RemoteState
  | [], st => (.ok (), st)
  | id :: rest, st =>
    match f id st with
    | (.ok _, st1) => runSteps f rest st1
    | (.error e, st1) => (.error e, st1)

theorem runSteps_append (f : Int → RemoteState → Except ProxyErr Unit × RemoteState)
    (l1 l2 : List Int) (st : RemoteState) :
    runSteps f (l1 ++ l2) st =
      match runSteps f l1 st with
      | (.ok _, st1) => runSteps f l2 st1
      | (.error e, st1) => (.error e, st1) := by
  induction l1 generalizing st with
  | nil => rfl
  | cons id rest ih =>
    rw [List.cons_append, runSteps, runSteps]
    rcases hf : f id st with ⟨res, st1⟩
    rcases res with e | u
    · rfl
    · exact ih st1

theorem removeTransfers_runSteps (cfg : Config) (b : Bool) :
    ∀ (ids : List Int) (st : RemoteState),
      RemoveTransfers cfg b ids st = runSteps (removeStep cfg b) ids st := by
  intro ids
  induction ids with
  | nil => intro st; rfl
  | cons id rest ih =>
    intro st
    rw [RemoveTransfers, runSteps, removeStep]
    rcases hg : getTransferOp st id with ⟨res, st1⟩
    rcases res with e1 | t
    · rfl
    · simp only []
      rcases hp : parseCallbackURL cfg t.callbackURL with e2 | ex
      · exact ih st1
      · simp only []
        by_cases hcond : b ∧ t.fileID ≠ 0
        · rw [if_pos hcond, if_pos hcond]
          rcases hd : deleteFileOp st1 t.fileID with ⟨rd, st2⟩
          rcases rd with _ | _
          · rfl
          · simp only []
            rcases hc : cancelTransferOp st2 t.id with ⟨rc, st3⟩
            rcases rc with _ | _
            · rfl
            · exact ih st3
        · rw [if_neg hcond, if_neg hcond]
          rcases hc : cancelTransferOp st1 t.id with ⟨rc, st3⟩
          rcases rc with _ | _
          · rfl
          · exact ih st3

/-- C7: `RemoveTransfers` is exactly the in-order run of the per-id step —
each owned id gets its file deleted only when requested and the file id is
non-zero, then its transfer cancelled — and whenever the steps over a prefix
of the ids end in an error, the whole call returns that error with the state
exactly as the failing step left it: processed ids stay processed, the ids
after the failure are never touched, and nothing is rolled back. -/
theorem removeTransfers_sequential (cfg : Config) (b : Bool) (ids : List Int)
    (st : RemoteState) :
    RemoveTransfers cfg b ids st = runSteps (removeStep cfg b) ids st ∧
    (∀ l1 l2 e st1, ids = l1 ++ l2 →
      runSteps (removeStep cfg b) l1 st = (.error e, st1) →
      RemoveTransfers cfg b ids st = (.error e, st1)) := by
  refine ⟨removeTransfers_runSteps cfg b ids st, ?_⟩
  intro l1 l2 e st1 hids herr
  subst hids
  rw [removeTransfers_runSteps cfg b (l1 ++ l2) st, runSteps_append, herr]

theorem removeTransfers_sequential_witness :
    RemoveTransfers ⟨str "/dl", 0, []⟩ true [5, 6]
        ⟨[], [], 0, 0, [], [5], [], [], []⟩ =
      runSteps (removeStep ⟨str "/dl", 0, []⟩ true) [5, 6]
        ⟨[], [], 0, 0, [], [5], [], [], []⟩ ∧
    RemoveTransfers ⟨str "/dl", 0, []⟩ true [5, 6]
        ⟨[], [], 0, 0, [], [5], [], [], []⟩ =
      (.error .remote,
        recordEvent ⟨[], [], 0, 0, [], [5], [], [], []⟩ (.getTransfer 5)) :=
  ⟨(removeTransfers_sequential ⟨str "/dl", 0, []⟩ true [5, 6]
      ⟨[], [], 0, 0, [], [5], [], [], []⟩).1,
   (removeTransfers_sequential ⟨str "/dl", 0, []⟩ true [5, 6]
      ⟨[], [], 0, 0, [], [5], [], [], []⟩).2 [5] [6] .remote
     (recordEvent ⟨[], [], 0, 0, [], [5], [], [], []⟩ (.getTransfer 5))
     (by decide) (by decide)⟩

/-- C3: the callback URL encodes only the requested logical directory, so the
directory recovered from a listing is `requestedDir` itself, not
`{requestedDir}/{newID}`; the latter is only the `DownloadDir` field that
`AddTransfer` synthesizes on its own return value. Concretely: after adding a
transfer (fresh id `1`) under requested directory `/putarr`, the listing
recovers directory `/putarr`, while the claim's expected `{requestedDir}/{newID}`
is the different string `/putarr/1`. -/
theorem add_list_dir_counterexample :
    ((GetTransfers ⟨str "/putarr", 7, []⟩
        (AddTransfer ⟨str "/putarr", 7, []⟩ (str "m") (str "/putarr")
          ⟨[], [], 0, 0, [], [], [], [], []⟩).2).1.map
        (List.map Transfer.downloadDir) = .ok [str "/putarr"]) ∧
    ((AddTransfer ⟨str "/putarr", 7, []⟩ (str "m") (str "/putarr")
        ⟨[], [], 0, 0, [], [], [], [], []⟩).1.map Transfer.downloadDir =
      .ok (str "/putarr" ++ '/' :: intToDec 1)) ∧
    str "/putarr" ≠ str "/putarr" ++ '/' :: intToDec 1 := by
  refine ⟨by decide, by rfl, by decide⟩

/-- C3 (amended): a successful `AddTransfer` returns the transfer with
`DownloadDir` synthesized as `{requestedDir}/{newID}`, and an immediately
following `GetTransfers` under the same configuration lists that transfer —
with recovered logical directory equal to the requested directory itself. -/
theorem add_then_list_includes (cfg : Config) (magnet dir : GoStr)
    (st : RemoteState) (r : Transfer) (st2 : RemoteState)
    (h : AddTransfer cfg magnet dir st = (.ok r, st2)) :
    r.downloadDir = dir ++ '/' :: intToDec r.transfer.id ∧
    ∃ l st3, GetTransfers cfg st2 = (.ok l, st3) ∧ Transfer.mk r.transfer dir ∈ l := by
  rw [AddTransfer] at h
  rcases hc : createAndReturnDirID cfg dir st with ⟨res, st1⟩
  rw [hc] at h
  rcases res with e | parentID
  · cases h
  · simp only [Prod.mk.injEq, Except.ok.injEq] at h
    rcases h with ⟨hr, hst2⟩
    rcases hr' : (addTransferOp st1 magnet parentID (formatCallbackURL cfg ⟨dir⟩)).1
      with ⟨tid, tname, tsize, tdl, tcb, tfid, tstat, tfin⟩
    constructor
    · rw [← hr, hr']
    · refine ⟨_, _, rfl, ?_⟩
      rw [← hr]
      apply List.mem_filterMap.mpr
      refine ⟨(addTransferOp st1 magnet parentID (formatCallbackURL cfg ⟨dir⟩)).1, ?_, ?_⟩
      · rw [← hst2, addTransferOp]
        simp [listTransfersOp]
      · have hcb : (addTransferOp st1 magnet parentID (formatCallbackURL cfg ⟨dir⟩)).1.callbackURL =
            formatCallbackURL cfg ⟨dir⟩ := by
          rw [addTransferOp]
        rw [hcb, parseCallbackURL_format]
        simp

/-- Witness: in the concrete run of the counterexample configuration, the
amended theorem applies with the computed output. -/
theorem add_then_list_includes_witness :
    AddTransfer ⟨str "/dl", 3, []⟩ (str "m") (str "/dl")
        ⟨[], [], 0, 0, [], [], [], [], []⟩ =
      (.ok ⟨⟨1, str "m", 0, 0, formatCallbackURL ⟨str "/dl", 3, []⟩ ⟨str "/dl"⟩, 0,
          str "DOWNLOADING", none⟩, str "/dl" ++ '/' :: intToDec 1⟩,
        ⟨[], [⟨1, str "m", 0, 0, formatCallbackURL ⟨str "/dl", 3, []⟩ ⟨str "/dl"⟩, 0,
          str "DOWNLOADING", none⟩], 0, 1, [], [], [], [],
          [.addTransfer (str "m") 3 (formatCallbackURL ⟨str "/dl", 3, []⟩ ⟨str "/dl"⟩)]⟩) ∧
    ((⟨⟨1, str "m", 0, 0, formatCallbackURL ⟨str "/dl", 3, []⟩ ⟨str "/dl"⟩, 0,
          str "DOWNLOADING", none⟩, str "/dl" ++ '/' :: intToDec 1⟩ : Transfer).downloadDir =
        str "/dl" ++ '/' :: intToDec
          (⟨⟨1, str "m", 0, 0, formatCallbackURL ⟨str "/dl", 3, []⟩ ⟨str "/dl"⟩, 0,
            str "DOWNLOADING", none⟩, str "/dl" ++ '/' :: intToDec 1⟩ : Transfer).transfer.id ∧
      ∃ l st3,
        GetTransfers ⟨str "/dl", 3, []⟩
            ⟨[], [⟨1, str "m", 0, 0, formatCallbackURL ⟨str "/dl", 3, []⟩ ⟨str "/dl"⟩, 0,
              str "DOWNLOADING", none⟩], 0, 1, [], [], [], [],
              [.addTransfer (str "m") 3 (formatCallbackURL ⟨str "/dl", 3, []⟩ ⟨str "/dl"⟩)]⟩ =
          (.ok l, st3) ∧
        Transfer.mk ⟨1, str "m", 0, 0, formatCallbackURL ⟨str "/dl", 3, []⟩ ⟨str "/dl"⟩, 0,
          str "DOWNLOADING", none⟩ (str "/dl") ∈ l) :=
  ⟨rfl,
   add_then_list_includes ⟨str "/dl", 3, []⟩ (str "m") (str "/dl")
     ⟨[], [], 0, 0, [], [], [], [], []⟩ _ _ rfl⟩

/-! ## Directory containment (claim C4) -/

/-- Spec-side notion, translated from the claim's own words rather than the
code: the path equals the configured root, or is a path-descendant of it —
the root followed by the path separator and at least one further character.
To be compared against the code's character-prefix test. -/
def specPathWithinRoot (root p : GoStr) : Bool :=
  p = root || (goHasPre (root ++ ['/']) p && decide (root.length + 1 < p.length))

theorem goTrimPre_eq_self (pre s : GoStr)
    (h : goHasPre pre s = false ∨ pre = []) : goTrimPre pre s = s := by
  rcases h with h | h
  · rw [goTrimPre, h]
    simp
  · subst h
    rw [goTrimPre]
    simp [goHasPre]

/-- C4: the code guards the download directory with `strings.TrimPrefix`, a
character-prefix test, not a path-descendant test. A path that merely shares
the root as a character prefix — root `/d`, path `/dx` — is accepted, and the
add mutates the remote (it lists and creates folders and adds a transfer),
refuting the claim. -/
theorem add_outside_root_counterexample :
    specPathWithinRoot (str "/d") (str "/dx") = false ∧
    (AddTransfer ⟨str "/d", 0, []⟩ (str "m") (str "/dx")
        ⟨[], [], 0, 0, [], [], [], [], []⟩).1.isOk = true ∧
    (AddTransfer ⟨str "/d", 0, []⟩ (str "m") (str "/dx")
        ⟨[], [], 0, 0, [], [], [], [], []⟩).2.events ≠ [] := by
  refine ⟨by decide, by decide, ?_⟩
  decide

/-- C4 (amended): a torrent-add whose target path does not have the configured
root download directory as a character prefix (or whose configured root is the
empty string, which `TrimPrefix` leaves unchanged) fails with
`InvalidDownloadDirectory` and performs no remote call at all: the remote
state, including its event trace, is returned untouched. -/
theorem add_outside_root_rejected (cfg : Config) (magnet path : GoStr)
    (st : RemoteState)
    (h : goHasPre cfg.downloadDir path = false ∨ cfg.downloadDir = []) :
    AddTransfer cfg magnet path st = (.error .invalidDownloadDir, st) := by
  have htrim : goTrimPre cfg.downloadDir path = path := goTrimPre_eq_self _ _ h
  rw [AddTransfer, createAndReturnDirID]
  simp [htrim]

/-- C2: a transfer whose callback URL fails to parse under this instance's
configuration is unowned: `GetTransfers` never lists it (with any decoded
directory), and `RemoveTransfers` on its id records only the lookup and then
moves on to the remaining ids — no file deletion, no cancel. -/
theorem unowned_transfer_skipped (cfg : Config) (st : RemoteState)
    (t : PutioTransfer) (e : CallbackErr)
    (hparse : parseCallbackURL cfg t.callbackURL = .error e) :
    (∀ l st2 d, GetTransfers cfg st = (.ok l, st2) → Transfer.mk t d ∉ l) ∧
    (∀ b rest, t.id ∉ st.failGet →
      (st.transfers.find? fun u => u.id = t.id) = some t →
      RemoveTransfers cfg b (t.id :: rest) st =
        RemoveTransfers cfg b rest (recordEvent st (.getTransfer t.id))) := by
  constructor
  · intro l st2 d hget hmem
    rw [GetTransfers] at hget
    have hl : l = st.transfers.filterMap fun u =>
        match parseCallbackURL cfg u.callbackURL with
        | .error _ => none
        | .ok extra => some ⟨u, extra.downloadDir⟩ := by
      have := congrArg Prod.fst hget
      simp only [listTransfersOp] at this
      exact (Except.ok.inj this).symm
    rw [hl, List.mem_filterMap] at hmem
    rcases hmem with ⟨u, _, hf⟩
    rcases hu : parseCallbackURL cfg u.callbackURL with e2 | ex
    · rw [hu] at hf
      cases hf
    · rw [hu] at hf
      simp only [Option.some.injEq, Transfer.mk.injEq] at hf
      rw [hf.1] at hu
      rw [hparse] at hu
      cases hu
  · intro b rest hfg hfind
    rw [RemoveTransfers, getTransferOp]
    simp only [if_neg hfg, hfind]
    rw [hparse]

theorem unowned_transfer_skipped_witness :
    parseCallbackURL ⟨str "/dl", 0, []⟩ (str "bad") = .error .unrecognized ∧
    ((∀ l st2 d,
        GetTransfers ⟨str "/dl", 0, []⟩
            ⟨[], [⟨7, str "n", 0, 0, str "bad", 0, str "S", none⟩], 0, 7, [], [], [], [], []⟩ =
          (.ok l, st2) →
        Transfer.mk ⟨7, str "n", 0, 0, str "bad", 0, str "S", none⟩ d ∉ l) ∧
     (∀ b rest,
        (7 : Int) ∉ ([] : List Int) →
        (([⟨7, str "n", 0, 0, str "bad", 0, str "S", none⟩] : List PutioTransfer).find?
            fun u => u.id = 7) = some ⟨7, str "n", 0, 0, str "bad", 0, str "S", none⟩ →
        RemoveTransfers ⟨str "/dl", 0, []⟩ b (7 :: rest)
            ⟨[], [⟨7, str "n", 0, 0, str "bad", 0, str "S", none⟩], 0, 7, [], [], [], [], []⟩ =
          RemoveTransfers ⟨str "/dl", 0, []⟩ b rest
            (recordEvent
              ⟨[], [⟨7, str "n", 0, 0, str "bad", 0, str "S", none⟩], 0, 7, [], [], [], [], []⟩
              (.getTransfer 7)))) :=
  ⟨by decide,
   unowned_transfer_skipped ⟨str "/dl", 0, []⟩
     ⟨[], [⟨7, str "n", 0, 0, str "bad", 0, str "S", none⟩], 0, 7, [], [], [], [], []⟩
     ⟨7, str "n", 0, 0, str "bad", 0, str "S", none⟩ .unrecognized (by decide)⟩

theorem add_outside_root_rejected_witness :
    (goHasPre (str "/dl") (str "/tmp/x") = false ∨ str "/dl" = ([] : GoStr)) ∧
    AddTransfer ⟨str "/dl", 0, []⟩ (str "m") (str "/tmp/x")
        ⟨[], [], 0, 0, [], [], [], [], []⟩ =
      (.error .invalidDownloadDir, ⟨[], [], 0, 0, [], [], [], [], []⟩) :=
  ⟨Or.inl (by decide),
   add_outside_root_rejected ⟨str "/dl", 0, []⟩ (str "m") (str "/tmp/x")
     ⟨[], [], 0, 0, [], [], [], [], []⟩ (Or.inl (by decide))⟩

end Putarr

